import Mathlib

/-!
Shallow embedding of the core of the `clicker` browser-automation agent
(`src/agent/actions.py`, `src/agent/loop.py`, `src/session.py`,
`src/llm_caller/base.py`, `src/llm_caller/google_vertex.py`) and proofs
about the frozen specification claims.

Modelling conventions:
* Python `dict`s appearing in JSON documents are association lists
  (`List (String × JValue)`), looked up by first matching key, which agrees
  with Python `dict` semantics because the source never builds duplicate keys.
* Python `int` is `Int`; token counts are `Nat` (the providers return
  non-negative counts).
* `json.dumps`/`json.loads` of the Python standard library, `hashlib.md5`
  and pydantic's `model_dump_json` are not this repository's code; where a
  claim's behaviour does not depend on their internals they are abstracted
  as function parameters of the embedding, and everything written in the
  repository itself is embedded directly.
-/

namespace Clicker

/-- A JSON value, as handled by the Python code (`dict` / `list` / `str` /
`int` / `bool` / `None`).  Python floats do not occur in the schema and
conversation documents the claims are about, and JSON round-trips Python
floats exactly, so an exact integer payload stands in for numbers. -/
inductive JValue where
  | null : JValue
  | bool (b : Bool) : JValue
  | num (n : Int) : JValue
  | str (s : String) : JValue
  | arr (items : List JValue) : JValue
  | obj (fields : List (String × JValue)) : JValue

/-- First-match association-list lookup: the embedding of `d[k]` / `k in d` /
`d.get(k)` on a Python dict `d` (the source never creates duplicate keys). -/
def jlookup (fields : List (String × JValue)) (key : String) : Option JValue :=
  match fields with
  | [] => none
  | (k, v) :: rest => if k = key then some v else jlookup rest key

/-- Remove every binding of a key: the embedding of `d.pop(k, default)`'s
effect on the dict. -/
def jremove (fields : List (String × JValue)) (key : String) : List (String × JValue) :=
  fields.filter (fun kv => kv.1 ≠ key)

/-- Is this JSON value a `dict`? -/
def JValue.isObj : JValue → Bool
  | .obj _ => true
  | _ => false

/-- Python `str.strip()` (ASCII/unicode whitespace at both ends), as a
structurally recursive character-list function so that concrete inputs
evaluate inside the kernel. -/
def pyStrip (s : String) : String :=
  ⟨((s.data.dropWhile Char.isWhitespace).reverse.dropWhile Char.isWhitespace).reverse⟩

/-- Python `str.startswith`, character-list based. -/
def strStartsWith (s pre : String) : Bool :=
  pre.data.isPrefixOf s.data

/-- Python `str.endswith`, character-list based. -/
def strEndsWith (s suf : String) : Bool :=
  suf.data.reverse.isPrefixOf s.data.reverse

/-- Helper for `pySplit`: accumulate the current segment (reversed). -/
def pySplitAux (c : Char) : List Char → List Char → List (List Char)
  | [], acc => [acc.reverse]
  | x :: rest, acc =>
    if x = c then acc.reverse :: pySplitAux c rest []
    else pySplitAux c rest (x :: acc)

/-- Python `str.split(sep)` for a one-character separator (the source only
splits on `"\n"` and `"/"`): empty segments are kept. -/
def pySplit (s : String) (c : Char) : List String :=
  (pySplitAux c s.data []).map fun l => ⟨l⟩

/-- `sep.join(parts)` (Python `str.join`), character-list based. -/
def pyJoin (sep : String) (parts : List String) : String :=
  ⟨List.intercalate sep.data (parts.map String.data)⟩

/-- Python slicing `s[:n]` — the first `n` characters. -/
def pyTake (s : String) (n : Nat) : String :=
  ⟨s.data.take n⟩

/-- `role` of a conversation message (`MessageRole` in `llm_caller/base.py`). -/
inductive MessageRole where
  | user : MessageRole
  | assistant : MessageRole
deriving DecidableEq, Repr

/-- `MessageRole.value` — the wire string of the role enum. -/
def MessageRole.value : MessageRole → String
  | .user => "user"
  | .assistant => "assistant"

/-- A content part of a multimodal message: `TextContent` or `ImageContent`
from `llm_caller/base.py` (`ImageContent.data` is the base64 payload,
`ImageContent.media_type` its media type). -/
inductive ContentPart where
  | text (t : String) : ContentPart
  | image (data mediaType : String) : ContentPart
deriving DecidableEq, Repr

/-- `MessageContent = str | list[ContentPart]` from `llm_caller/base.py`. -/
inductive MessageContent where
  | str (s : String) : MessageContent
  | parts (l : List ContentPart) : MessageContent
deriving DecidableEq, Repr

/-- `ConversationMessage` from `llm_caller/base.py`. -/
structure ConversationMessage where
  role : MessageRole
  content : MessageContent
deriving DecidableEq, Repr

/-! ## Action schema (`src/agent/actions.py`) -/

/-- The tagged union `Action` of `agent/actions.py`: nine variants
discriminated by the `action` field.  Each variant carries exactly the
fields of the corresponding pydantic model. -/
inductive Action where
  | click (x y : Int) : Action
  | double_click (x y : Int) : Action
  | type (text : String) : Action
  | press_key (key : String) : Action
  | scroll (x y delta_x delta_y : Int) : Action
  | drag (from_x from_y to_x to_y : Int) : Action
  | wait (ms : Int) : Action
  | done (summary : String) : Action
  | fail (reason : String) : Action
deriving DecidableEq, Repr

/-- Read an integer-valued required field, as pydantic validation of an
`int` field does on a JSON object (an embedding of the lax-mode acceptance
of JSON integers; the lax string-to-int coercion pydantic also performs is
outside the JSON shapes this development quantifies over). -/
def getIntField (fields : List (String × JValue)) (key : String) : Option Int :=
  match jlookup fields key with
  | some (.num n) => some n
  | _ => none

/-- Read a string-valued required field, as pydantic validation of a `str`
field does. -/
def getStrField (fields : List (String × JValue)) (key : String) : Option String :=
  match jlookup fields key with
  | some (.str s) => some s
  | _ => none

/-- Parse a JSON object into exactly one `Action` variant, discriminated by
the `action` tag, as pydantic's discriminated union over the nine models in
`agent/actions.py` does: unknown tags and missing required fields are
rejected, extra fields are ignored, and `scroll.delta_x` defaults to `0`. -/
def parseAction (v : JValue) : Option Action :=
  match v with
  | .obj fields =>
    match jlookup fields "action" with
    | some (.str "click") => do
      let x ← getIntField fields "x"
      let y ← getIntField fields "y"
      pure (.click x y)
    | some (.str "double_click") => do
      let x ← getIntField fields "x"
      let y ← getIntField fields "y"
      pure (.double_click x y)
    | some (.str "type") => do
      let t ← getStrField fields "text"
      pure (.type t)
    | some (.str "press_key") => do
      let k ← getStrField fields "key"
      pure (.press_key k)
    | some (.str "scroll") => do
      let x ← getIntField fields "x"
      let y ← getIntField fields "y"
      let dx := (getIntField fields "delta_x").getD 0
      let dy ← getIntField fields "delta_y"
      pure (.scroll x y dx dy)
    | some (.str "drag") => do
      let fx ← getIntField fields "from_x"
      let fy ← getIntField fields "from_y"
      let tx ← getIntField fields "to_x"
      let ty ← getIntField fields "to_y"
      pure (.drag fx fy tx ty)
    | some (.str "wait") => do
      let ms ← getIntField fields "ms"
      pure (.wait ms)
    | some (.str "done") => do
      let s ← getStrField fields "summary"
      pure (.done s)
    | some (.str "fail") => do
      let r ← getStrField fields "reason"
      pure (.fail r)
    | _ => none
  | _ => none

/-- Serialize an `Action` back to a JSON object (pydantic `model_dump`:
all fields, declaration order, tag first, `scroll.delta_x` included even
when it holds its default). -/
def serializeAction : Action → JValue
  | .click x y => .obj [("action", .str "click"), ("x", .num x), ("y", .num y)]
  | .double_click x y => .obj [("action", .str "double_click"), ("x", .num x), ("y", .num y)]
  | .type t => .obj [("action", .str "type"), ("text", .str t)]
  | .press_key k => .obj [("action", .str "press_key"), ("key", .str k)]
  | .scroll x y dx dy =>
    .obj [("action", .str "scroll"), ("x", .num x), ("y", .num y),
          ("delta_x", .num dx), ("delta_y", .num dy)]
  | .drag fx fy tx ty =>
    .obj [("action", .str "drag"), ("from_x", .num fx), ("from_y", .num fy),
          ("to_x", .num tx), ("to_y", .num ty)]
  | .wait ms => .obj [("action", .str "wait"), ("ms", .num ms)]
  | .done s => .obj [("action", .str "done"), ("summary", .str s)]
  | .fail r => .obj [("action", .str "fail"), ("reason", .str r)]

/-! ## Session persistence (`src/session.py`) -/

/-- `_SCREENSHOT_OMITTED` from `session.py`. -/
def SCREENSHOT_OMITTED : String := "[screenshot omitted]"

/-- The text parts of a parts list:
`[p.text for p in msg.content if isinstance(p, TextContent)]`. -/
def textPartsOf (l : List ContentPart) : List String :=
  l.filterMap fun p =>
    match p with
    | .text t => some t
    | .image _ _ => none

/-- Serialize one conversation message to a `(role, content)` record with a
plain-string content, per the loop body of `serialize_conversation`:
a string content is kept; a parts-list content is replaced by
`"[screenshot omitted] "` followed by the space-joined text parts,
whether or not the list contains an image part. -/
def serializeMessage (m : ConversationMessage) : String × String :=
  match m.content with
  | .str s => (m.role.value, s)
  | .parts l => (m.role.value, SCREENSHOT_OMITTED ++ " " ++ pyJoin " " (textPartsOf l))

/-- `serialize_conversation` from `session.py`: JSON-safe `{role, content}`
records, images stripped. -/
def serialize_conversation (conversation : List ConversationMessage) : List (String × String) :=
  conversation.map serializeMessage

/-- Delete the image parts of a message, keeping its text parts (used to
state that `serialize_conversation` is insensitive to image payloads). -/
def dropImageParts (m : ConversationMessage) : ConversationMessage :=
  match m.content with
  | .str s => ⟨m.role, .str s⟩
  | .parts l =>
    ⟨m.role, .parts (l.filter fun p =>
      match p with
      | .text _ => true
      | .image _ _ => false)⟩

/-- `SessionState` from `session.py` (the dataclass persisted to
`session.json`).  `elapsed_seconds` is a Python float carried verbatim
through JSON (`json.dump` emits `repr`, `json.loads` parses it back
exactly), so an exact numeric type stands in for it.  `conversation`
entries are arbitrary JSON records, as in the source (`list[dict[str,
Any]]` is untouched by save/load). -/
structure SessionState where
  version : Int
  status : String
  url : String
  last_url : String
  scenario : String
  model : String
  viewport : List (String × Int)
  headless : Bool
  pause : Bool
  max_steps : Int
  step : Int
  elapsed_seconds : Int
  screenshot_counts : List (String × Int)
  screenshot_warnings : List (String × Int)
  conversation : List JValue
  usage : List (String × Int)
  fallback_model : Option String
  use_smart_model : Bool

/-- Encode a `dict[str, int]` as a JSON object. -/
def encodeIntObj (l : List (String × Int)) : JValue :=
  .obj (l.map fun kv => (kv.1, .num kv.2))

/-- Decode the entries of a JSON object holding integer values. -/
def decodeIntEntries : List (String × JValue) → Option (List (String × Int))
  | [] => some []
  | (k, .num n) :: rest => (decodeIntEntries rest).map (fun l => (k, n) :: l)
  | _ => none

/-- Decode a JSON object back into a `dict[str, int]` shape. -/
def decodeIntObj (v : JValue) : Option (List (String × Int)) :=
  match v with
  | .obj fields => decodeIntEntries fields
  | _ => none

/-- `save_session`'s `data` dict (`session.py` lines 83-102): the JSON
document written — atomically, via a temp file and rename — to
`session.json`, with the fields in the order the source lists them.
An absent `fallback_model` is serialized as JSON `null` (Python `None`). -/
def save_session (state : SessionState) : JValue :=
  .obj
    [("version", .num state.version),
     ("status", .str state.status),
     ("url", .str state.url),
     ("last_url", .str state.last_url),
     ("scenario", .str state.scenario),
     ("model", .str state.model),
     ("fallback_model", match state.fallback_model with
       | some s => .str s
       | none => .null),
     ("use_smart_model", .bool state.use_smart_model),
     ("viewport", encodeIntObj state.viewport),
     ("headless", .bool state.headless),
     ("pause", .bool state.pause),
     ("max_steps", .num state.max_steps),
     ("step", .num state.step),
     ("elapsed_seconds", .num state.elapsed_seconds),
     ("screenshot_counts", encodeIntObj state.screenshot_counts),
     ("screenshot_warnings", encodeIntObj state.screenshot_warnings),
     ("conversation", .arr state.conversation),
     ("usage", encodeIntObj state.usage)]

/-- Read a required field (`data["k"]`; a missing key raises `KeyError` in
the source, here `none`). -/
def reqStr (fields : List (String × JValue)) (key : String) : Option String :=
  getStrField fields key

/-- `load_session` from `session.py`, applied to the parsed `session.json`
document: rejects any document whose `version` is not `1`, reads the
required fields, and defaults `pause` to `False`, `usage` to `{}`,
`fallback_model` to `None` and `use_smart_model` to `False` when missing.
The Python dataclass performs no runtime type validation; the shape
projections here succeed on every document `save_session` writes, which is
the domain the round-trip claim quantifies over. -/
def load_session (doc : JValue) : Option SessionState :=
  match doc with
  | .obj fields =>
    match jlookup fields "version" with
    | some (.num 1) => do
      let status ← reqStr fields "status"
      let url ← reqStr fields "url"
      let lastUrl ← reqStr fields "last_url"
      let scenario ← reqStr fields "scenario"
      let model ← reqStr fields "model"
      let viewport ← (jlookup fields "viewport").bind decodeIntObj
      let headless ← match jlookup fields "headless" with
        | some (.bool b) => some b
        | _ => none
      let pause := match jlookup fields "pause" with
        | some (.bool b) => b
        | _ => false
      let maxSteps ← getIntField fields "max_steps"
      let step ← getIntField fields "step"
      let elapsed ← getIntField fields "elapsed_seconds"
      let counts ← (jlookup fields "screenshot_counts").bind decodeIntObj
      let warnings ← (jlookup fields "screenshot_warnings").bind decodeIntObj
      let conversation ← match jlookup fields "conversation" with
        | some (.arr l) => some l
        | _ => none
      let usage := match (jlookup fields "usage").bind decodeIntObj with
        | some u => u
        | none => []
      let fallbackModel := match jlookup fields "fallback_model" with
        | some (.str s) => some s
        | _ => none
      let useSmartModel := match jlookup fields "use_smart_model" with
        | some (.bool b) => b
        | _ => false
      pure
        { version := 1, status := status, url := url, last_url := lastUrl,
          scenario := scenario, model := model, viewport := viewport,
          headless := headless, pause := pause, max_steps := maxSteps,
          step := step, elapsed_seconds := elapsed,
          screenshot_counts := counts, screenshot_warnings := warnings,
          conversation := conversation, usage := usage,
          fallback_model := fallbackModel, use_smart_model := useSmartModel }
    | _ => none
  | _ => none

/-! ## Conversation compression (`src/agent/loop.py`, `_compress_conversation`) -/

/-- `_COMPRESS_THRESHOLD` from `loop.py`. -/
def COMPRESS_THRESHOLD : Nat := 50

/-- `_COMPRESS_KEEP_RECENT` from `loop.py`. -/
def COMPRESS_KEEP_RECENT : Nat := 10

/-- Python `f"{value}"` for the JSON values that can appear as an action
tag (`action.get("action", "?")`).  The real data always holds a string;
the renderings of the non-string JSON atoms follow `str()`, and the
container renderings (which Python would print as full `repr`s) are
abbreviated — they never occur in the loop's data and no claim depends on
them. -/
def pyStr : JValue → String
  | .str s => s
  | .num n => toString n
  | .bool true => "True"
  | .bool false => "False"
  | .null => "None"
  | .arr _ => "[...]"
  | .obj _ => "\x7b...\x7d"

/-- The summary line built for one old assistant message (`loop.py` lines
91-97), given `tryParse`, the embedding of `json.loads` on the message
text (`none` models `json.JSONDecodeError`).  A parsed non-dict value, or
a non-dict `action` entry, raises `AttributeError` in the source and takes
the same fallback branch as a parse failure.  (A non-string `observation`
value would raise an uncaught `TypeError` in the source; it cannot arise
from the loop's own messages and is rendered here as `""`.) -/
def summaryLine (tryParse : String → Option JValue) (stepNum : Nat) (content : String) : String :=
  match tryParse content with
  | some (.obj fields) =>
    let obs := match jlookup fields "observation" with
      | some (.str o) => pyTake o 150
      | none => ""
      | some _ => ""
    match jlookup fields "action" with
    | some (.obj afields) =>
      "  Step " ++ toString stepNum ++ ": [" ++
        pyStr ((jlookup afields "action").getD (.str "?")) ++ "] " ++ obs
    | none =>
      "  Step " ++ toString stepNum ++ ": [?] " ++ obs
    | some _ => "  Step " ++ toString stepNum ++ ": " ++ pyTake content 150
  | _ => "  Step " ++ toString stepNum ++ ": " ++ pyTake content 150

/-- The summary lines for the compressed prefix: one line per assistant
message whose content is a plain string, with the running step number
incremented exactly on those messages. -/
def summaryLines (tryParse : String → Option JValue) (stepNum : Nat) :
    List ConversationMessage → List String
  | [] => []
  | m :: rest =>
    match m.role, m.content with
    | .assistant, .str s =>
      summaryLine tryParse (stepNum + 1) s :: summaryLines tryParse (stepNum + 1) rest
    | _, _ => summaryLines tryParse stepNum rest

/-- The single user-role summary message folded from the compressed prefix. -/
def summaryMessage (tryParse : String → Option JValue)
    (toCompress : List ConversationMessage) : ConversationMessage :=
  ⟨.user, .str (pyJoin "\n"
    ("Summary of previous steps:" :: summaryLines tryParse 0 toCompress))⟩

/-- The synthetic assistant acknowledgment injected after the summary
(`loop.py` lines 107-110), with its literal JSON text. -/
def ackMessage : ConversationMessage :=
  ⟨.assistant, .str "\x7b\"observation\": \"Understood the summary of previous steps.\", \"reasoning\": \"Continuing from where we left off.\", \"action\": \x7b\"action\": \"wait\", \"ms\": 0\x7d\x7d"⟩

/-- `_compress_conversation` from `loop.py`: conversations of at most 50
messages are returned unchanged; longer ones become
`[summary][ack][last 10 messages]`. -/
def compress_conversation (tryParse : String → Option JValue)
    (conversation : List ConversationMessage) : List ConversationMessage :=
  if conversation.length ≤ COMPRESS_THRESHOLD then conversation
  else
    summaryMessage tryParse (conversation.take (conversation.length - COMPRESS_KEEP_RECENT)) ::
      ackMessage :: conversation.drop (conversation.length - COMPRESS_KEEP_RECENT)

/-- The role after `r` in a properly alternating conversation. -/
def MessageRole.next : MessageRole → MessageRole
  | .user => .assistant
  | .assistant => .user

/-- `rolesAlternate r l` holds when the roles of `l` are
`r, r.next, r, r.next, …` — the provider-required alternation invariant,
anchored at `r`. -/
def rolesAlternate (r : MessageRole) : List ConversationMessage → Bool
  | [] => true
  | m :: rest => m.role == r && rolesAlternate r.next rest

/-! ## Agent loop (`src/agent/loop.py`, `run_agent` and `_execute_action`) -/

/-- `_POST_ACTION_DELAY_MS` from `loop.py`. -/
def POST_ACTION_DELAY_MS : Int := 2000

/-- `_STUCK_SCREENSHOT_LIMIT` from `loop.py`. -/
def STUCK_SCREENSHOT_LIMIT : Nat := 5

/-- One primitive browser invocation, as issued by `_execute_action`
against the `BrowserController` collaborator. -/
inductive BrowserCmd where
  | click (x y : Int) : BrowserCmd
  | double_click (x y : Int) : BrowserCmd
  | type_text (text : String) : BrowserCmd
  | press_key (key : String) : BrowserCmd
  | scroll (x y dx dy : Int) : BrowserCmd
  | drag (x1 y1 x2 y2 : Int) : BrowserCmd
  | wait (ms : Int) : BrowserCmd
deriving DecidableEq, Repr

/-- `_execute_action` from `loop.py`, as the sequence of browser calls it
makes: one primitive per non-terminal action, followed by the fixed
2000 ms settle wait — except a `wait` action, which returns right after
its own wait, and the terminal `done`/`fail` actions, which invoke
nothing. -/
def execute_action : Action → List BrowserCmd
  | .click x y => [.click x y, .wait POST_ACTION_DELAY_MS]
  | .double_click x y => [.double_click x y, .wait POST_ACTION_DELAY_MS]
  | .type t => [.type_text t, .wait POST_ACTION_DELAY_MS]
  | .press_key k => [.press_key k, .wait POST_ACTION_DELAY_MS]
  | .scroll x y dx dy => [.scroll x y dx dy, .wait POST_ACTION_DELAY_MS]
  | .drag fx fy tx ty => [.drag fx fy tx ty, .wait POST_ACTION_DELAY_MS]
  | .wait ms => [.wait ms]
  | .done _ => []
  | .fail _ => []

/-- The `AgentResponse` envelope the loop consumes (`agent/actions.py`). -/
structure AgentResponse where
  observation : String
  reasoning : String
  next_step : String
  action : Action
deriving DecidableEq, Repr

/-- The screenshot-repeat counters: `screenshot_counts` and
`screenshot_warnings`, two independent per-hash `Counter`s. -/
structure StuckCounters where
  counts : String → Nat
  warnings : String → Nat

/-- Fresh counters (`Counter()`). -/
def StuckCounters.zero : StuckCounters := ⟨fun _ => 0, fun _ => 0⟩

/-- `counter[h] += 1`. -/
def bumpCount (f : String → Nat) (h : String) : String → Nat :=
  fun x => if x = h then f x + 1 else f x

/-- What the stuck-detection block of one iteration decides
(`loop.py` lines 192-212). -/
inductive StuckCheck where
  | stop : StuckCheck
  | warn (warningsGiven repeatCount : Nat) : StuckCheck
  | ok : StuckCheck
deriving DecidableEq, Repr

/-- The stuck-detection block of one iteration: bump the repeat counter of
the step's screenshot hash; once the repeat count reaches the limit (5),
bump the per-hash warning counter as well, force-stop when it exceeds 3,
and otherwise emit warning `warningsGiven`/3. -/
def stuckStep (s : StuckCounters) (h : String) : StuckCounters × StuckCheck :=
  let counts := bumpCount s.counts h
  let repeatCount := counts h
  if STUCK_SCREENSHOT_LIMIT ≤ repeatCount then
    let warnings := bumpCount s.warnings h
    let warningsGiven := warnings h
    if 3 < warningsGiven then (⟨counts, warnings⟩, .stop)
    else (⟨counts, warnings⟩, .warn warningsGiven repeatCount)
  else (⟨counts, s.warnings⟩, .ok)

/-- The warning text appended to the user turn
(`loop.py` lines 208-212). -/
def stuckHint (warningsGiven repeatCount : Nat) : String :=
  "\n\nWARNING (" ++ toString warningsGiven ++ "/3): This exact screen has appeared " ++
    toString repeatCount ++ " times already. " ++
    "You are stuck. Try a COMPLETELY different approach, or use the fail action if you cannot proceed. " ++
    "You will be force-stopped after 3 warnings."

/-- The terminal tag of an action: `done` and `fail` end the loop. -/
def Action.isTerminal : Action → Bool
  | .done _ => true
  | .fail _ => true
  | _ => false

/-- `AgentResult` from `loop.py`, without the token-usage total (the usage
accounting lives in the caller embedding; no claim ties it to the loop's
result record). -/
structure AgentResult where
  success : Bool
  summary : String
  steps_taken : Nat
deriving DecidableEq, Repr

/-- The in-memory loop state threaded between iterations. -/
structure LoopState where
  step : Nat
  stuck : StuckCounters
  conversation : List ConversationMessage

/-- A fresh (non-resumed) loop start. -/
def LoopState.fresh : LoopState := ⟨0, .zero, []⟩

/-- The per-iteration inputs the loop obtains from its collaborators: the
base64 screenshot and current URL from the browser, and the validated
response from the LLM caller. -/
structure StepInput where
  screenshot_b64 : String
  current_url : String
  response : AgentResponse
deriving Repr

/-- The non-repository collaborators of the loop, abstracted:
`hash` is `hashlib.md5(...).hexdigest()`, `dump` is pydantic's
`model_dump_json` on the response envelope, and `tryParse` is `json.loads`
as used by `_compress_conversation`. -/
structure LoopEnv where
  hash : String → String
  dump : AgentResponse → String
  tryParse : String → Option JValue

/-- What one loop iteration produced: either a final `AgentResult`, or the
browser commands executed for a non-terminal action. -/
inductive StepOutcome where
  | finished (result : AgentResult) : StepOutcome
  | continued (cmds : List BrowserCmd) : StepOutcome
deriving DecidableEq, Repr

/-- Rewrite `conversation[-3]` to a text-only placeholder when it is a
user message whose content is a parts list (`loop.py` lines 248-256),
exactly as the source indexes it — `conversation[-3]` counted from the
end of the list after this step's user and assistant turns were appended. -/
def elideOldImages (conversation : List ConversationMessage) : List ConversationMessage :=
  if 4 ≤ conversation.length then
    match conversation[conversation.length - 3]? with
    | some oldMsg =>
      match oldMsg.role, oldMsg.content with
      | .user, .parts l =>
        conversation.set (conversation.length - 3)
          ⟨.user, .str (SCREENSHOT_OMITTED ++ " " ++ pyJoin " " (textPartsOf l))⟩
      | _, _ => conversation
    | none => conversation
  else conversation

/-- One iteration of `run_agent`'s `while True` body (`loop.py` lines
174-291), from the step-counter increment to either a returned
`AgentResult` or the executed browser commands.  The wall-clock timeout
check is omitted (real time is outside the embedding); `max_steps` uses
`0` for "unlimited" as in the source.  The defensive non-`AgentResponse`
branch cannot arise here because the response is typed. -/
def loopStep (env : LoopEnv) (maxSteps : Nat) (st : LoopState) (input : StepInput) :
    LoopState × StepOutcome :=
  let step := st.step + 1
  if 0 < maxSteps ∧ maxSteps < step then
    (⟨step, st.stuck, st.conversation⟩,
     .finished ⟨false, "Max steps (" ++ toString maxSteps ++ ") exceeded", step - 1⟩)
  else
    let screenshotHash := env.hash input.screenshot_b64
    let (stuck, check) := stuckStep st.stuck screenshotHash
    match check with
    | .stop =>
      (⟨step, stuck, st.conversation⟩,
       .finished ⟨false, "Force stopped: stuck on the same screen", step⟩)
    | _ =>
      let hint := match check with
        | .warn w r => stuckHint w r
        | _ => ""
      let stepLabel :=
        if maxSteps = 0 then "Step " ++ toString step
        else "Step " ++ toString step ++ "/" ++ toString maxSteps
      let userMessage : ConversationMessage :=
        ⟨.user, .parts
          [.image input.screenshot_b64 "image/png",
           .text ("Current URL: " ++ input.current_url ++ "\n" ++ stepLabel ++
             ". What should I do next?" ++ hint)]⟩
      let conv1 := st.conversation ++ [userMessage]
      let conv2 := conv1 ++ [⟨.assistant, .str (env.dump input.response)⟩]
      let conv3 := elideOldImages conv2
      let conv4 := compress_conversation env.tryParse conv3
      match input.response.action with
      | .done summary => (⟨step, stuck, conv4⟩, .finished ⟨true, summary, step⟩)
      | .fail reason => (⟨step, stuck, conv4⟩, .finished ⟨false, reason, step⟩)
      | act => (⟨step, stuck, conv4⟩, .continued (execute_action act))

/-- Run the loop over a list of per-step inputs, stopping at the first
iteration that returns; `none` means the supplied inputs were exhausted
with the loop still running. -/
def runSteps (env : LoopEnv) (maxSteps : Nat) (st : LoopState) :
    List StepInput → LoopState × Option AgentResult
  | [] => (st, none)
  | input :: rest =>
    match loopStep env maxSteps st input with
    | (st', .finished r) => (st', some r)
    | (st', .continued _) => runSteps env maxSteps st' rest

/-! ## Structured LLM caller (`src/llm_caller/base.py`) -/

/-- `UsageStats` from `llm_caller/base.py`. -/
structure UsageStats where
  input_tokens : Nat
  output_tokens : Nat
  cache_read_tokens : Nat
  cache_creation_tokens : Nat
deriving DecidableEq, Repr

/-- `UsageStats.__iadd__`: componentwise addition. -/
def UsageStats.add (a b : UsageStats) : UsageStats :=
  ⟨a.input_tokens + b.input_tokens, a.output_tokens + b.output_tokens,
   a.cache_read_tokens + b.cache_read_tokens,
   a.cache_creation_tokens + b.cache_creation_tokens⟩

/-- `UsageStats()`: all counters zero. -/
def UsageStats.zero : UsageStats := ⟨0, 0, 0, 0⟩

/-- Componentwise sum of a list of usage records. -/
def sumUsage (l : List UsageStats) : UsageStats :=
  l.foldr UsageStats.add UsageStats.zero

/-- `LlmResult` from `llm_caller/base.py`: the text content (possibly
absent) and the usage of one provider API call. -/
structure LlmResult where
  text : Option String
  usage : UsageStats
deriving DecidableEq, Repr

/-- What the `k`-th `_do_api_call` invocation does: return an `LlmResult`,
or raise a transport-level provider exception (carrying its message). -/
inductive ApiOutcome where
  | ok (r : LlmResult) : ApiOutcome
  | raises (e : String) : ApiOutcome
deriving DecidableEq, Repr

/-- An exception propagating out of `call_llm`: either the provider's
transport exception re-raised by `_handle_error`'s bare `raise`, or the
`ValueError` that `_handle_exhausted_retries` produces. -/
inductive PyError where
  | transport (e : String) : PyError
  | valueError (msg : String) : PyError
deriving DecidableEq, Repr

/-- The Python-visible result of `call_llm`: a validated value with the
call's usage, a plain-text result with the call's usage, or a propagated
exception — which, as in the source, carries nothing but the exception
itself. -/
inductive CallResult (R : Type) where
  | ok (v : R) (usage : UsageStats) : CallResult R
  | text (s : String) (usage : UsageStats) : CallResult R
  | raised (e : PyError) : CallResult R
deriving DecidableEq, Repr

/-- The provider adapter and schema machinery `call_llm` is parameterized
over, mirroring the abstract methods of `LlmCaller` plus the non-repository
libraries: `convertMessages` is `_convert_messages`, `createRetry` is
`_create_retry_message`, `parseJson` is `json.loads` (errors carry the
exception text), `validate` is `_validate_json_response` for the schema in
use (errors carry the validation-error text), and `exhaustFallback` is the
result of `_handle_exhausted_retries`' attempt to validate its default
object (`none` when that validation fails, as it does for `AgentResponse`,
or when the schema is a raw dict). -/
structure CallerEnv (Msg J R : Type) where
  convertMessages : List ConversationMessage → List Msg
  createRetry : String → Msg
  parseJson : String → Except String J
  validate : J → Except String R
  exhaustFallback : Option R
  provider : String

/-- `_strip_markdown_code_block` from `llm_caller/base.py`, over the
character-list string operations above. -/
def strip_markdown_code_block (text : String) : String :=
  let t := pyStrip text
  if strStartsWith t "```" && strEndsWith t "```" then
    pyJoin "\n" ((pySplit t '\n').drop 1).dropLast
  else if strStartsWith t "```" then
    pyJoin "\n" ((pySplit t '\n').drop 1)
  else t

/-- The instrumented outcome of `call_llm`: the Python-visible result
plus the internal `total_usage` accumulator, the working provider-format
message list, and the number of `_do_api_call` invocations at exit.  The
`collected`/`messages`/`apiCalls` components are observation-only: in the
`raised` case the source discards them. -/
structure CallTrace (Msg R : Type) where
  result : CallResult R
  collected : UsageStats
  messages : List Msg
  apiCalls : Nat

/-- `MAX_RETRIES` from `llm_caller/base.py`. -/
def MAX_RETRIES : Nat := 3

/-- The `for attempt in range(MAX_RETRIES)` body of `call_llm`
(`llm_caller/base.py` lines 227-280), with `remaining` attempts left and
`attempt` the next attempt index.  `hasSchema` distinguishes the
schema-constrained call from the plain-text call (`if not json_schema`).
A transport exception escapes the loop into the `except` handler
(`_handle_error`): with a schema it is re-raised bare, losing the usage
collected so far; without a schema an `"Error: …"` string is returned
together with that usage.  Exhaustion reaches
`_handle_exhausted_retries`: the fallback default if it validates,
otherwise the `ValueError` (re-raised unchanged by `_handle_error`). -/
def callLoop {Msg J R : Type} (env : CallerEnv Msg J R) (hasSchema : Bool)
    (api : Nat → ApiOutcome) :
    Nat → Nat → List Msg → UsageStats → Nat → CallTrace Msg R
  | 0, _, msgs, acc, calls =>
    if hasSchema then
      match env.exhaustFallback with
      | some v => ⟨.ok v acc, acc, msgs, calls⟩
      | none =>
        ⟨.raised (.valueError ("Failed to get valid response from " ++ env.provider ++
           " after " ++ toString MAX_RETRIES ++ " attempts")), acc, msgs, calls⟩
    else ⟨.text "" acc, acc, msgs, calls⟩
  | remaining + 1, attempt, msgs, acc, calls =>
    match api attempt with
    | .raises e =>
      if hasSchema then ⟨.raised (.transport e), acc, msgs, calls + 1⟩
      else ⟨.text ("Error: " ++ e) acc, acc, msgs, calls + 1⟩
    | .ok r =>
      let acc := acc.add r.usage
      match r.text with
      | none =>
        let errorMsg := "Empty response received from " ++ env.provider
        callLoop env hasSchema api remaining (attempt + 1)
          (msgs ++ [env.createRetry errorMsg]) acc (calls + 1)
      | some textContent =>
        if hasSchema then
          let textContent := strip_markdown_code_block textContent
          match env.parseJson textContent with
          | .error e =>
            let errorMsg := "Invalid JSON format: " ++ e ++ ". Content: " ++ pyTake textContent 200
            callLoop env hasSchema api remaining (attempt + 1)
              (msgs ++ [env.createRetry (errorMsg ++ ". Please provide valid JSON matching the schema.")])
              acc (calls + 1)
          | .ok data =>
            match env.validate data with
            | .ok v => ⟨.ok v acc, acc, msgs, calls + 1⟩
            | .error e =>
              let errorMsg := "JSON does not match schema: " ++ e ++ ". Content: " ++ pyTake textContent 200
              callLoop env hasSchema api remaining (attempt + 1)
                (msgs ++ [env.createRetry (errorMsg ++ ". Please ensure all required fields are present and match the schema.")])
                acc (calls + 1)
        else ⟨.text textContent acc, acc, msgs, calls + 1⟩

/-- `call_llm` from `llm_caller/base.py` (instrumented): convert the
caller's conversation history into the provider's working message list and
run up to `MAX_RETRIES` attempts.  The caller's `conversation_history`
argument is an immutable input here, as in the source, where only the
converted working copy `messages` is ever appended to. -/
def call_llm {Msg J R : Type} (env : CallerEnv Msg J R) (hasSchema : Bool)
    (api : Nat → ApiOutcome) (conversationHistory : List ConversationMessage) :
    CallTrace Msg R :=
  callLoop env hasSchema api MAX_RETRIES 0 (env.convertMessages conversationHistory)
    UsageStats.zero 0

/-- Classify one non-raising attempt the way the retry loop does: `none`
when the attempt succeeds, `some errText` (the synthetic
retry-instruction's text) when it fails — exactly when the provider
returned no content, the stripped text is not valid JSON, or the parsed
JSON does not satisfy the schema. -/
def attemptFailure {Msg J R : Type} (env : CallerEnv Msg J R) (r : LlmResult) :
    Option String :=
  match r.text with
  | none => some ("Empty response received from " ++ env.provider)
  | some textContent =>
    let textContent := strip_markdown_code_block textContent
    match env.parseJson textContent with
    | .error e =>
      some ("Invalid JSON format: " ++ e ++ ". Content: " ++ pyTake textContent 200 ++
        ". Please provide valid JSON matching the schema.")
    | .ok data =>
      match env.validate data with
      | .ok _ => none
      | .error e =>
        some ("JSON does not match schema: " ++ e ++ ". Content: " ++ pyTake textContent 200 ++
          ". Please ensure all required fields are present and match the schema.")

/-- The validated value of a succeeding attempt. -/
def attemptValue {Msg J R : Type} (env : CallerEnv Msg J R) (r : LlmResult) : Option R :=
  match r.text with
  | none => none
  | some textContent =>
    match env.parseJson (strip_markdown_code_block textContent) with
    | .error _ => none
    | .ok data =>
      match env.validate data with
      | .ok v => some v
      | .error _ => none

/-! ## Gemini schema conversion (`src/llm_caller/google_vertex.py`) -/

/-- `ref_path.split("/")[-1]`. -/
def lastSegment (refPath : String) : String :=
  match (pySplit refPath '/').getLast? with
  | some s => s
  | none => ""

/-- One item of a list value inside `_flatten_refs`
(`_flatten_refs(item, defs) if isinstance(item, dict) else item`): dict
items are recursed via `g`, all other items (including nested lists) are
kept as-is. -/
def seekItem (g : JValue → Option JValue) : JValue → Option JValue
  | .obj fs => g (.obj fs)
  | v => some v

/-- The items of a list value inside `_flatten_refs`. -/
def seekItems (g : JValue → Option JValue) : List JValue → Option (List JValue)
  | [] => some []
  | x :: rest => do
    let v' ← seekItem g x
    let rest' ← seekItems g rest
    pure (v' :: rest')

/-- One field value of a non-`$ref` dict inside `_flatten_refs`: dicts are
recursed via `g`, lists have their dict items recursed, everything else is
kept. -/
def seekValue (g : JValue → Option JValue) : JValue → Option JValue
  | .obj fs => g (.obj fs)
  | .arr items => (seekItems g items).map .arr
  | v => some v

/-- Rebuild the fields of a non-`$ref` dict (`for key, value in
node.items()` in `_flatten_refs`), recursing with `g` into dict values and
into the dict items of list values. -/
def seekFields (g : JValue → Option JValue) :
    List (String × JValue) → Option (List (String × JValue))
  | [] => some []
  | (k, v) :: rest => do
    let v' ← seekValue g v
    let rest' ← seekFields g rest
    pure ((k, v') :: rest')

/-- `_flatten_refs` from `google_vertex.py`, with explicit fuel: each
Python call frame consumes one unit, so a `none` result for every fuel
models a non-terminating recursion.  A node whose `"$ref"` value is a
string is either replaced by the recursively flattened definition
(`"#/$defs/Name"` with `Name` present in `defs`) or returned as-is; other
dict nodes are rebuilt with dict values recursed and dict items of list
values recursed (items of nested lists are, as in the source, left
untouched); non-dict nodes are returned unchanged.  (A non-string `"$ref"`
value would raise `AttributeError` in the source; it is returned unchanged
here and reached by no claim.) -/
def flatten_refs (defs : List (String × JValue)) : Nat → JValue → Option JValue
  | 0, _ => none
  | fuel + 1, node =>
    match node with
    | .obj fields =>
      match jlookup fields "$ref" with
      | some (.str refPath) =>
        if strStartsWith refPath "#/$defs/" then
          match jlookup defs (lastSegment refPath) with
          | some d => flatten_refs defs fuel d
          | none => some node
        else some node
      | some _ => some node
      | none =>
        (seekFields (flatten_refs defs fuel) fields).map .obj
    | v => some v

mutual

/-- `_process_schema_node` from `google_vertex.py`: rewrite type arrays
into `anyOf`, remove `additionalProperties`, and recurse the same way
`_flatten_refs` traverses (dict values, and dict items of list values). -/
def process_schema_node : JValue → JValue
  | .obj fields => .obj (processFields fields)
  | v => v

/-- The `for key, value in node.items()` body of `_process_schema_node`. -/
def processFields : List (String × JValue) → List (String × JValue)
  | [] => []
  | (k, .arr ts) :: rest =>
    if k = "type" then
      ("anyOf", .arr (ts.map fun t => .obj [("type", t)])) :: processFields rest
    else if k = "additionalProperties" then processFields rest
    else (k, .arr (processItems ts)) :: processFields rest
  | (k, v) :: rest =>
    if k = "additionalProperties" then processFields rest
    else (k, processValue v) :: processFields rest

/-- One non-list field value of `_process_schema_node`: dicts recurse,
atoms are kept. -/
def processValue : JValue → JValue
  | .obj fs => process_schema_node (.obj fs)
  | v => v

/-- List items in `_process_schema_node`: dict items recurse, others are
kept. -/
def processItems : List JValue → List JValue
  | [] => []
  | .obj fs :: rest => process_schema_node (.obj fs) :: processItems rest
  | v :: rest => v :: processItems rest

end

/-- `_convert_schema_to_gemini` from `google_vertex.py` (with the same
fuel discipline as `flatten_refs`): pop `$defs`, flatten all `$ref`s when
any definitions were present, then post-process for Gemini compatibility.
(`schema.pop` on a non-dict schema would raise in the source; such a value
is passed straight to the post-processing here and reached by no claim.) -/
def convert_schema_to_gemini (fuel : Nat) (schema : JValue) : Option JValue :=
  match schema with
  | .obj fields =>
    let defs := match jlookup fields "$defs" with
      | some (.obj d) => d
      | _ => []
    let base : JValue := .obj (jremove fields "$defs")
    if defs.isEmpty then some (process_schema_node base)
    else (flatten_refs defs fuel base).map process_schema_node
  | v => some (process_schema_node v)

mutual

/-- Every `"$ref"` string occurring syntactically anywhere in a JSON
value (used to phrase acyclicity of a `$defs` set). -/
def refsOf : JValue → List String
  | .obj fields => refsOfFields fields
  | .arr items => refsOfItems items
  | _ => []

/-- The `"$ref"` strings of a field list: a binding `("$ref", .str s)`
contributes `s`, and every value is searched recursively. -/
def refsOfFields : List (String × JValue) → List String
  | [] => []
  | (k, .str s) :: rest =>
    if k = "$ref" then s :: refsOfFields rest else refsOfFields rest
  | (_, v) :: rest => refsOf v ++ refsOfFields rest

/-- The `"$ref"` strings of a list of items. -/
def refsOfItems : List JValue → List String
  | [] => []
  | v :: rest => refsOf v ++ refsOfItems rest

end

/-- The definition name a `"$ref"` string resolves to, if any: it must
start with `"#/$defs/"` and its last `/`-segment must be present in
`defs` — exactly the condition under which `_flatten_refs` inlines. -/
def resolvedName (defs : List (String × JValue)) (refPath : String) : Option String :=
  if strStartsWith refPath "#/$defs/" ∧ (jlookup defs (lastSegment refPath)).isSome then
    some (lastSegment refPath)
  else none

/-- `rankedDefs defs r` holds when `r` is a topological rank witnessing
that the reference graph of the `$defs` set is acyclic: every resolvable
`"$ref"` occurring in a definition points to a definition of strictly
smaller rank.  An acyclic definitions set is precisely one admitting such
a rank. -/
def rankedDefs (defs : List (String × JValue)) (r : String → Nat) : Bool :=
  defs.all fun nd =>
    (refsOf nd.2).all fun rp =>
      match resolvedName defs rp with
      | some n => decide (r n < r nd.1)
      | none => true

/-- `refsBelow defs r k v` holds when every resolvable `"$ref"` occurring
in `v` points to a definition of rank `< k`. -/
def refsBelow (defs : List (String × JValue)) (r : String → Nat) (k : Nat) (v : JValue) : Bool :=
  (refsOf v).all fun rp =>
    match resolvedName defs rp with
    | some n => decide (r n < k)
    | none => true

mutual

/-- `noLiveRefs defs v` holds when `v` contains no resolvable `"$ref"`
at any position `_flatten_refs`'s traversal reaches: a dict carrying a
`"$ref"` key has been inlined (so any remaining string `"$ref"` is
unresolvable and the dict is returned verbatim), and a `$ref`-free dict
has all its dict values and the dict items of its list values flattened. -/
def noLiveRefs (defs : List (String × JValue)) : JValue → Bool
  | .obj fields =>
    match jlookup fields "$ref" with
    | some (.str rp) => !(resolvedName defs rp).isSome
    | some _ => true
    | none => noLiveRefsFields defs fields
  | _ => true

/-- Field values of a `$ref`-free dict, under the traversal's reach. -/
def noLiveRefsFields (defs : List (String × JValue)) : List (String × JValue) → Bool
  | [] => true
  | (_, v) :: rest => noLiveRefsValue defs v && noLiveRefsFields defs rest

/-- One field value: dict values and dict items of list values are in the
traversal's reach; nested lists and atoms are not. -/
def noLiveRefsValue (defs : List (String × JValue)) : JValue → Bool
  | .obj fs => noLiveRefs defs (.obj fs)
  | .arr items => noLiveRefsItems defs items
  | _ => true

/-- Items of a list value: only dict items are reached. -/
def noLiveRefsItems (defs : List (String × JValue)) : List JValue → Bool
  | [] => true
  | .obj fs :: rest => noLiveRefs defs (.obj fs) && noLiveRefsItems defs rest
  | _ :: rest => noLiveRefsItems defs rest

end

/-- `flattenDiverges defs node` says the `_flatten_refs` recursion started
on `node` exhausts every finite fuel: the source, which has no fuel and no
already-inlined guard, recurses without bound on such an input. -/
def flattenDiverges (defs : List (String × JValue)) (node : JValue) : Prop :=
  ∀ fuel, flatten_refs defs fuel node = none

/-- A definitions set with a genuine `$ref` cycle: `Loop` refers to
itself. -/
def cycDefs : List (String × JValue) :=
  [("Loop", .obj [("$ref", .str "#/$defs/Loop")])]

/-- A schema node referencing the cyclic definition. -/
def cycNode : JValue := .obj [("$ref", .str "#/$defs/Loop")]

/-- The full schema document holding the cyclic `$defs` set, as it would
reach `_convert_schema_to_gemini`. -/
def cycSchema : JValue :=
  .obj [("$defs", .obj cycDefs), ("$ref", .str "#/$defs/Loop")]

/-- The largest rank a definition name carries (any node's resolvable refs
land strictly below `maxRank + 1`). -/
def maxRank (defs : List (String × JValue)) (r : String → Nat) : Nat :=
  defs.foldr (fun nd m => max (r nd.1) m) 0

/-- The counters after the stuck-detection block has processed a hash
sequence, starting from fresh counters. -/
def applyStuck (hs : List String) : StuckCounters :=
  hs.foldl (fun s h => (stuckStep s h).1) .zero

/-- The stuck-detection decision on the step observing `h` after the
sequence `pre` has been processed. -/
def checkAfter (pre : List String) (h : String) : StuckCheck :=
  (stuckStep (applyStuck pre) h).2

/-- The usage one provider attempt contributes to `total_usage`: a raising
attempt returns nothing and contributes nothing. -/
def attemptUsage : ApiOutcome → UsageStats
  | .ok r => r.usage
  | .raises _ => .zero

/-- The synthetic retry-instruction text a non-succeeding, non-raising
attempt appends, `none` for a succeeding or raising attempt. -/
def retryTextOf {Msg J R : Type} (env : CallerEnv Msg J R) : ApiOutcome → Option String
  | .ok r => attemptFailure env r
  | .raises _ => none

/-- The index of the first step at which the stuck-detection block
force-stops, processing the hash sequence after `pre` has already been
seen (`none` when no step force-stops). -/
def firstStopIdx (pre : List String) : List String → Option Nat
  | [] => none
  | h :: rest =>
    if checkAfter pre h = .stop then some 0
    else (firstStopIdx (pre ++ [h]) rest).map (· + 1)

/-- A concrete loop environment for closed evaluations: the hash function
is injective on the inputs used (all `hashlib.md5` needs to provide), the
response dump is a fixed string, and `json.loads` fails on it (it is not
valid JSON). -/
def probeEnv : LoopEnv := ⟨fun s => s, fun _ => "resp", fun _ => none⟩

/-- A concrete non-terminal step input with the given screenshot and URL. -/
def probeInput (b64 url : String) : StepInput :=
  ⟨b64, url, ⟨"o", "r", "n", .click 1 2⟩⟩

/-- An alternating conversation of `n` single-character text messages
starting with a user turn (the message texts are not valid JSON, so
`json.loads` fails on them and `fun _ => none` is the faithful `tryParse`
instantiation). -/
def mkAlt (n : Nat) : List ConversationMessage :=
  (List.range n).map fun i => ⟨if i % 2 = 0 then .user else .assistant, .str "x"⟩

/-- A concrete caller environment for closed evaluations (`Msg`, `J` and
`R` all `String`): retry messages are their own text, `json.loads`
succeeds only on the text `"good"`, and schema validation maps it to the
validated value `"V"`.  The exhaustion fallback fails to validate, as it
does for the `AgentResponse` schema. -/
def probeCaller : CallerEnv String String String :=
  ⟨fun _ => [], fun e => e,
   fun s => if s = "good" then .ok s else .error "bad json",
   fun j => if j = "good" then .ok "V" else .error "schema mismatch",
   none, "openai"⟩

/-- An attempt sequence whose first attempt raises a transport
exception. -/
def apiRaiseNow : Nat → ApiOutcome := fun _ => .raises "boom"

/-- An attempt sequence whose first attempt fails schema validation after
consuming usage ⟨7, 3, 1, 2⟩ and whose second attempt raises the same
transport exception as `apiRaiseNow`. -/
def apiFailThenRaise : Nat → ApiOutcome := fun k =>
  if k = 0 then .ok ⟨some "bad", ⟨7, 3, 1, 2⟩⟩ else .raises "boom"

/-- An attempt sequence whose first attempt returns malformed JSON with
usage ⟨5, 2, 0, 0⟩ and whose second attempt returns valid, schema-passing
JSON with usage ⟨4, 1, 0, 0⟩. -/
def apiFailThenOk : Nat → ApiOutcome := fun k =>
  if k = 0 then .ok ⟨some "bad", ⟨5, 2, 0, 0⟩⟩ else .ok ⟨some "good", ⟨4, 1, 0, 0⟩⟩

/-- A concrete acyclic `$defs` set: definition `A` refers to definition
`B`, which is a plain leaf schema. -/
def wDefs : List (String × JValue) :=
  [("A", .obj [("$ref", .str "#/$defs/B")]), ("B", .obj [("type", .str "string")])]

/-- A topological rank witnessing the acyclicity of `wDefs`. -/
def wRank : String → Nat := fun n => if n = "A" then 1 else 0

/-- A schema node referencing definition `A` of `wDefs`. -/
def wNode : JValue := .obj [("$ref", .str "#/$defs/A")]

/-! ## Theorems -/

theorem parse_serialize (a : Action) : parseAction (serializeAction a) = some a := by
  cases a <;> rfl

/-- C8: Action round-trip.  Parsing a valid Action JSON object (one the
discriminated-union parser accepts), serializing the parsed value and
parsing again reproduces the first parse; equivalently, serializing and
reparsing any `Action` instance yields an equal instance (stated as the
second conjunct for every instance, valid-parse origin or not). -/
theorem action_roundtrip :
    (∀ (j : JValue) (a : Action), parseAction j = some a →
      parseAction (serializeAction a) = some a) ∧
    (∀ a : Action, parseAction (serializeAction a) = some a) :=
  ⟨fun _ a _ => parse_serialize a, parse_serialize⟩

/-- C8 witness: a concrete scroll-action JSON object (with `delta_x`
omitted, exercising its default) parses, and round-trips losslessly. -/
theorem action_roundtrip_witness :
    parseAction (.obj [("action", .str "scroll"), ("x", .num 3), ("y", .num 4),
      ("delta_y", .num (-10))]) = some (.scroll 3 4 0 (-10)) ∧
    parseAction (serializeAction (.scroll 3 4 0 (-10))) = some (.scroll 3 4 0 (-10)) :=
  ⟨rfl, action_roundtrip.1 (.obj [("action", .str "scroll"), ("x", .num 3), ("y", .num 4),
      ("delta_y", .num (-10))]) (.scroll 3 4 0 (-10)) rfl⟩

theorem textPartsOf_dropImages (l : List ContentPart) :
    textPartsOf (l.filter fun p =>
      match p with
      | .text _ => true
      | .image _ _ => false) = textPartsOf l := by
  induction l with
  | nil => rfl
  | cons p rest ih => cases p <;> simp [textPartsOf, List.filter] at ih ⊢ <;> simpa [textPartsOf] using ih

theorem serializeMessage_dropImageParts (m : ConversationMessage) :
    serializeMessage (dropImageParts m) = serializeMessage m := by
  obtain ⟨r, c⟩ := m
  cases c with
  | str s => rfl
  | parts l => simp [dropImageParts, serializeMessage, textPartsOf_dropImages]

/-- C9: persisted-conversation image stripping.  `serialize_conversation`
yields only `(role, content)` records whose content is a plain string (by
the type of `serializeMessage`); deleting every image part from the input
does not change the output, so no base64 image payload survives into it;
every parts-list message — whether or not an image part is present —
becomes the placeholder `"[screenshot omitted] "` followed by its
space-joined text parts; and plain-string messages pass through
verbatim. -/
theorem serialize_conversation_strips_images :
    (∀ c : List ConversationMessage,
      serialize_conversation (c.map dropImageParts) = serialize_conversation c) ∧
    (∀ (r : MessageRole) (l : List ContentPart),
      serializeMessage ⟨r, .parts l⟩ =
        (r.value, SCREENSHOT_OMITTED ++ " " ++ pyJoin " " (textPartsOf l))) ∧
    (∀ (r : MessageRole) (s : String), serializeMessage ⟨r, .str s⟩ = (r.value, s)) := by
  refine ⟨fun c => ?_, fun r l => rfl, fun r s => rfl⟩
  simp only [serialize_conversation, List.map_map]
  exact List.map_congr_left fun m _ => serializeMessage_dropImageParts m

theorem decodeIntObj_encodeIntObj (l : List (String × Int)) :
    decodeIntObj (encodeIntObj l) = some l := by
  induction l with
  | nil => rfl
  | cons kv rest ih =>
    obtain ⟨k, v⟩ := kv
    simp only [encodeIntObj, decodeIntObj, List.map_cons, decodeIntEntries] at ih ⊢
    simp [ih]

/-- C6: checkpoint round-trip.  For every `SessionState` with version 1,
the document `save_session` writes is read back by `load_session` as a
`SessionState` equal to the original field for field (every optional field
was present in the document, so no defaulting is exercised). -/
theorem session_roundtrip (s : SessionState) (h : s.version = 1) :
    load_session (save_session s) = some s := by
  obtain ⟨version, status, url, lastUrl, scenario, model, viewport, headless, pause,
    maxSteps, step, elapsed, counts, warnings, conversation, usage, fallbackModel,
    useSmart⟩ := s
  subst h
  cases fallbackModel <;>
    simp [load_session, save_session, jlookup, reqStr, getStrField, getIntField,
      decodeIntObj_encodeIntObj]

theorem MessageRole.next_next (r : MessageRole) : r.next.next = r := by
  cases r <;> rfl

theorem rolesAlternate_drop (k : Nat) (c : List ConversationMessage) (r : MessageRole)
    (h : rolesAlternate r c = true) :
    rolesAlternate (if k % 2 = 0 then r else r.next) (c.drop k) = true := by
  induction k generalizing c r with
  | zero => simpa using h
  | succ k ih =>
    cases c with
    | nil => simp [List.drop_nil, rolesAlternate]
    | cons m rest =>
      simp only [rolesAlternate, Bool.and_eq_true, beq_iff_eq] at h
      have ih' := ih rest r.next h.2
      rcases Nat.even_or_odd k with hk | hk
      · have h1 : k % 2 = 0 := Nat.even_iff.mp hk
        have h2 : (k + 1) % 2 = 1 := by omega
        simp only [h1, if_pos rfl] at ih'
        simpa [List.drop_succ_cons, h2] using ih'
      · have h1 : k % 2 = 1 := Nat.odd_iff.mp hk
        have h2 : (k + 1) % 2 = 0 := by omega
        simp only [h1] at ih'
        rw [MessageRole.next_next] at ih'
        simpa [List.drop_succ_cons, h2] using ih'

/-- C3 counterexample: the claim quantifies over every alternating
conversation longer than the threshold, but on an odd-length alternating
conversation (51 messages, so the kept tail starts with an assistant
turn) the compacted history does not alternate user/assistant starting
with user. -/
theorem compress_alternation_counterexample :
    50 < (mkAlt 51).length ∧
    rolesAlternate .user (mkAlt 51) = true ∧
    rolesAlternate .user (compress_conversation (fun _ => none) (mkAlt 51)) = false := by
  refine ⟨by decide, by decide, ?_⟩
  decide

/-- C3 (amended): compaction leaves a conversation of at most 50 messages
unchanged; on a longer conversation it returns one user-role summary
message, one assistant acknowledgment, then the last 10 original messages
unmodified (12 messages in all), it is idempotent because the result is
back under the threshold — and it preserves user-first alternation for
the alternating conversations of even length, which are the ones the
loop (which appends user/assistant turns in pairs) ever hands it; the
odd-length case is the counterexample. -/
theorem compress_le (tp : String → Option JValue) (c : List ConversationMessage)
    (h : c.length ≤ COMPRESS_THRESHOLD) : compress_conversation tp c = c := by
  simp [compress_conversation, h]

theorem compress_conversation_amended (tp : String → Option JValue)
    (conv : List ConversationMessage) :
    (conv.length ≤ COMPRESS_THRESHOLD → compress_conversation tp conv = conv) ∧
    (COMPRESS_THRESHOLD < conv.length →
      compress_conversation tp conv =
        summaryMessage tp (conv.take (conv.length - COMPRESS_KEEP_RECENT)) :: ackMessage ::
          conv.drop (conv.length - COMPRESS_KEEP_RECENT) ∧
      (compress_conversation tp conv).length = 12 ∧
      compress_conversation tp (compress_conversation tp conv) =
        compress_conversation tp conv ∧
      (rolesAlternate .user conv = true → conv.length % 2 = 0 →
        rolesAlternate .user (compress_conversation tp conv) = true)) := by
  constructor
  · exact compress_le tp conv
  · intro h
    have hne : ¬ conv.length ≤ COMPRESS_THRESHOLD := Nat.not_le.mpr h
    have hstruct : compress_conversation tp conv =
        summaryMessage tp (conv.take (conv.length - COMPRESS_KEEP_RECENT)) :: ackMessage ::
          conv.drop (conv.length - COMPRESS_KEEP_RECENT) := by
      simp [compress_conversation, hne]
    have hlen : (compress_conversation tp conv).length = 12 := by
      rw [hstruct]
      simp only [List.length_cons, List.length_drop]
      have : COMPRESS_THRESHOLD = 50 := rfl
      simp only [COMPRESS_KEEP_RECENT]
      omega
    refine ⟨hstruct, hlen, ?_, ?_⟩
    · exact compress_le tp _ (by rw [hlen]; decide)
    · intro halt heven
      rw [hstruct]
      have hk : (conv.length - COMPRESS_KEEP_RECENT) % 2 = 0 := by
        have : COMPRESS_THRESHOLD = 50 := rfl
        simp only [COMPRESS_KEEP_RECENT]
        omega
      have hdrop := rolesAlternate_drop (conv.length - COMPRESS_KEEP_RECENT) conv .user halt
      rw [if_pos hk] at hdrop
      simp [rolesAlternate, summaryMessage, ackMessage, MessageRole.next, hdrop]

/-- C3 witness: on a concrete even-length alternating conversation of 52
messages the amended theorem applies and alternation is preserved. -/
theorem compress_conversation_amended_witness :
    COMPRESS_THRESHOLD < (mkAlt 52).length ∧
    rolesAlternate .user (compress_conversation (fun _ => none) (mkAlt 52)) = true :=
  ⟨by decide,
   (((compress_conversation_amended (fun _ => none) (mkAlt 52)).2 (by decide)).2.2.2
     (by decide) (by decide))⟩

/-- C1 (code bug): image retention in the live conversation.  After the
second step's user and assistant turns are appended, the source inspects
`conversation[-3]` — which in the alternating conversation is the first
step's *assistant* turn, never a user turn — so the first step's
screenshot-bearing user turn is left fully intact instead of being
rewritten to `"[screenshot omitted] …"`: the rewrite guarded by
`old_msg.role == USER` at index `-3` can never fire.  This run of two
concrete steps evaluates the embedded loop and exhibits the retained
image. -/
theorem image_retention_failing_input :
    ((loopStep probeEnv 0
        ((loopStep probeEnv 0 .fresh (probeInput "IMGDATA1" "https://e.com/a")).1)
        (probeInput "IMGDATA2" "https://e.com/b")).1).conversation =
      [⟨.user, .parts [.image "IMGDATA1" "image/png",
          .text "Current URL: https://e.com/a\nStep 1. What should I do next?"]⟩,
       ⟨.assistant, .str "resp"⟩,
       ⟨.user, .parts [.image "IMGDATA2" "image/png",
          .text "Current URL: https://e.com/b\nStep 2. What should I do next?"]⟩,
       ⟨.assistant, .str "resp"⟩] := by
  decide

theorem stuckStep_fst_counts (s : StuckCounters) (h : String) :
    ((stuckStep s h).1).counts = bumpCount s.counts h := by
  simp only [stuckStep]
  repeat' split
  all_goals rfl

theorem stuckStep_fst_warnings (s : StuckCounters) (h : String) :
    ((stuckStep s h).1).warnings =
      if STUCK_SCREENSHOT_LIMIT ≤ s.counts h + 1 then bumpCount s.warnings h
      else s.warnings := by
  have hb : bumpCount s.counts h h = s.counts h + 1 := by simp [bumpCount]
  simp only [stuckStep, hb]
  repeat' split
  all_goals simp_all

theorem applyStuck_append (pre : List String) (h : String) :
    applyStuck (pre ++ [h]) = (stuckStep (applyStuck pre) h).1 := by
  simp [applyStuck, List.foldl_append]

theorem applyStuck_spec (hs : List String) :
    ∀ x, (applyStuck hs).counts x = hs.count x ∧
      (applyStuck hs).warnings x = hs.count x - 4 := by
  induction hs using List.reverseRecOn with
  | nil => exact fun x => ⟨rfl, rfl⟩
  | append_singleton pre h ih =>
    intro x
    rw [applyStuck_append, stuckStep_fst_counts, stuckStep_fst_warnings]
    have hcount : (pre ++ [h]).count x = pre.count x + if x = h then 1 else 0 := by
      by_cases hx : x = h <;> simp [hx, List.count_append]
    have hch : (applyStuck pre).counts h = pre.count h := (ih h).1
    constructor
    · by_cases hx : x = h <;>
        simp [bumpCount, hx, hcount, (ih x).1, hch]
    · by_cases h5 : STUCK_SCREENSHOT_LIMIT ≤ (applyStuck pre).counts h + 1
      · rw [if_pos h5]
        rw [hch] at h5
        by_cases hx : x = h
        · subst hx
          simp only [bumpCount, if_pos rfl, (ih x).2, hcount, if_pos rfl]
          have h55 : STUCK_SCREENSHOT_LIMIT = 5 := rfl
          rw [h55] at h5
          simp only [if_true, if_pos rfl]
          omega
        · simp [bumpCount, hx, (ih x).2, hcount]
      · rw [if_neg h5]
        rw [hch] at h5
        by_cases hx : x = h
        · subst hx
          rw [(ih x).2, hcount]
          have h55 : STUCK_SCREENSHOT_LIMIT = 5 := rfl
          rw [h55] at h5
          simp only [if_true, if_pos rfl]
          omega
        · simp [(ih x).2, hcount, hx]

theorem checkAfter_spec (pre : List String) (h : String) :
    (checkAfter pre h = .ok ↔ pre.count h + 1 < STUCK_SCREENSHOT_LIMIT) ∧
    (∀ w rep, checkAfter pre h = .warn w rep ↔
      (STUCK_SCREENSHOT_LIMIT ≤ pre.count h + 1 ∧ pre.count h + 1 ≤ 7 ∧
        w = pre.count h + 1 - 4 ∧ rep = pre.count h + 1)) ∧
    (checkAfter pre h = .stop ↔ 8 ≤ pre.count h + 1) := by
  have hc := (applyStuck_spec pre h).1
  have hw := (applyStuck_spec pre h).2
  have h55 : STUCK_SCREENSHOT_LIMIT = 5 := rfl
  unfold checkAfter stuckStep
  simp only [bumpCount, if_pos rfl, if_true, hc, hw, h55]
  by_cases h5 : 5 ≤ pre.count h + 1
  · rw [if_pos h5]
    by_cases h3 : 3 < pre.count h - 4 + 1
    · rw [if_pos h3]
      refine ⟨by simp; omega, fun w rep => by simp; omega, by simp; omega⟩
    · rw [if_neg h3]
      refine ⟨by simp; omega, fun w rep => ?_, by simp; omega⟩
      simp only
      constructor
      · intro hwr
        injection hwr with h1 h2
        omega
      · rintro ⟨h1, h2, rfl, rfl⟩
        have he : pre.count h - 4 + 1 = pre.count h + 1 - 4 := by omega
        rw [he]
  · rw [if_neg h5]
    refine ⟨by simp; omega, fun w rep => by simp; omega, by simp; omega⟩

theorem loopStep_stop (env : LoopEnv) (st : LoopState) (input : StepInput)
    (h : (stuckStep st.stuck (env.hash input.screenshot_b64)).2 = .stop) :
    loopStep env 0 st input =
      (⟨st.step + 1, (stuckStep st.stuck (env.hash input.screenshot_b64)).1, st.conversation⟩,
       .finished ⟨false, "Force stopped: stuck on the same screen", st.step + 1⟩) := by
  rcases hsc : stuckStep st.stuck (env.hash input.screenshot_b64) with ⟨stuck, check⟩
  rw [hsc] at h
  simp only at h
  subst h
  simp [loopStep, hsc]

theorem loopStep_continue (env : LoopEnv) (st : LoopState) (input : StepInput)
    (h : (stuckStep st.stuck (env.hash input.screenshot_b64)).2 ≠ .stop)
    (hnt : input.response.action.isTerminal = false) :
    ∃ conv', loopStep env 0 st input =
      (⟨st.step + 1, (stuckStep st.stuck (env.hash input.screenshot_b64)).1, conv'⟩,
       .continued (execute_action input.response.action)) := by
  rcases hsc : stuckStep st.stuck (env.hash input.screenshot_b64) with ⟨stuck, check⟩
  rw [hsc] at h
  simp only at h
  simp only [loopStep, hsc]
  norm_num
  cases check with
  | stop => exact absurd rfl h
  | warn w r =>
    cases hact : input.response.action <;> simp_all [Action.isTerminal]
  | ok =>
    cases hact : input.response.action <;> simp_all [Action.isTerminal]

theorem runSteps_firstStop (env : LoopEnv) (inputs : List StepInput) :
    ∀ (pre : List String) (conv : List ConversationMessage),
      (∀ inp ∈ inputs, inp.response.action.isTerminal = false) →
      (runSteps env 0 ⟨pre.length, applyStuck pre, conv⟩ inputs).2 =
        (firstStopIdx pre (inputs.map fun inp => env.hash inp.screenshot_b64)).map
          (fun i =>
            ⟨false, "Force stopped: stuck on the same screen", pre.length + i + 1⟩) := by
  induction inputs with
  | nil => intro pre conv _; rfl
  | cons inp rest ih =>
    intro pre conv hnt
    have hnt0 : inp.response.action.isTerminal = false := hnt inp (by simp)
    have hntr : ∀ i ∈ rest, i.response.action.isTerminal = false :=
      fun i hi => hnt i (by simp [hi])
    simp only [List.map_cons, firstStopIdx]
    by_cases hstop : checkAfter pre (env.hash inp.screenshot_b64) = .stop
    · rw [if_pos hstop]
      have hls := loopStep_stop env ⟨pre.length, applyStuck pre, conv⟩ inp hstop
      simp [runSteps, hls]
    · rw [if_neg hstop]
      obtain ⟨conv', hls⟩ :=
        loopStep_continue env ⟨pre.length, applyStuck pre, conv⟩ inp hstop hnt0
      simp only [runSteps, hls]
      have hstE : (⟨pre.length + 1, (stuckStep (applyStuck pre)
          (env.hash inp.screenshot_b64)).1, conv'⟩ : LoopState) =
          ⟨(pre ++ [env.hash inp.screenshot_b64]).length,
            applyStuck (pre ++ [env.hash inp.screenshot_b64]), conv'⟩ := by
        rw [applyStuck_append]
        simp
      rw [hstE, ih (pre ++ [env.hash inp.screenshot_b64]) conv' hntr]
      cases firstStopIdx (pre ++ [env.hash inp.screenshot_b64])
          (rest.map fun i => env.hash i.screenshot_b64) with
      | none => rfl
      | some i =>
        simp only [Option.map_some']
        have harith : (pre ++ [env.hash inp.screenshot_b64]).length + i + 1 =
            pre.length + (i + 1) + 1 := by simp; omega
        rw [harith]

theorem firstStopIdx_spec (hs : List String) :
    ∀ (pre : List String) (i : Nat),
      firstStopIdx pre hs = some i ↔
        ((∃ h, hs[i]? = some h ∧ checkAfter (pre ++ hs.take i) h = .stop) ∧
         ∀ j, j < i → ∀ h', hs[j]? = some h' →
           checkAfter (pre ++ hs.take j) h' ≠ .stop) := by
  induction hs with
  | nil =>
    intro pre i
    simp [firstStopIdx]
  | cons h rest ih =>
    intro pre i
    by_cases hstop : checkAfter pre h = .stop
    · simp only [firstStopIdx, if_pos hstop]
      cases i with
      | zero =>
        constructor
        · intro _
          exact ⟨⟨h, by simp, by simpa using hstop⟩, fun j hj => by omega⟩
        · intro _
          rfl
      | succ i' =>
        constructor
        · intro hsome
          exact absurd hsome (by simp)
        · rintro ⟨_, hmin⟩
          exact absurd (by simpa using hstop)
            (hmin 0 (Nat.succ_pos _) h (by simp))
    · simp only [firstStopIdx, if_neg hstop]
      cases i with
      | zero =>
        constructor
        · intro hsome
          rcases Option.map_eq_some.mp hsome with ⟨i', _, hcontra⟩
          omega
        · rintro ⟨⟨h', hget, hchk⟩, _⟩
          simp only [List.getElem?_cons_zero, Option.some_inj] at hget
          subst hget
          simp only [List.take_zero, List.append_nil] at hchk
          exact absurd hchk hstop
      | succ i' =>
        have hmap : (firstStopIdx (pre ++ [h]) rest).map (· + 1) = some (i' + 1) ↔
            firstStopIdx (pre ++ [h]) rest = some i' := by
          cases firstStopIdx (pre ++ [h]) rest <;> simp
        rw [hmap, ih (pre ++ [h]) i']
        constructor
        · rintro ⟨⟨h', hget, hchk⟩, hmin⟩
          refine ⟨⟨h', by simpa using hget, by simpa [List.append_assoc] using hchk⟩, ?_⟩
          intro j hj h'' hget''
          cases j with
          | zero =>
            simp only [List.getElem?_cons_zero, Option.some_inj] at hget''
            subst hget''
            simpa using hstop
          | succ j' =>
            have := hmin j' (by omega) h'' (by simpa using hget'')
            simpa [List.append_assoc] using this
        · rintro ⟨⟨h', hget, hchk⟩, hmin⟩
          refine ⟨⟨h', by simpa using hget, by simpa [List.append_assoc] using hchk⟩, ?_⟩
          intro j hj h'' hget''
          have := hmin (j + 1) (by omega) h'' (by simpa using hget'')
          simpa [List.append_assoc] using this

/-- C2: stuck detection.  For every hash sequence processed by the loop's
stuck block: each hash's repeat counter equals its number of occurrences
(independent per hash, +1 per occurrence); its warning counter increments
once per step from the 5th occurrence on (so it equals occurrences − 4);
a step emits a warning (whose text the loop appends to that step's
user-turn text) exactly while the warning count is 1..3, i.e. on
occurrences 5..7; the stuck block force-stops exactly when the warning
counter exceeds 3, i.e. from the hash's 8th occurrence (its 4th at or
above the repeat threshold); and over a full run with non-terminal
responses and no step bound, the loop returns the force-stop failure
exactly at the first such step — never earlier and never later — with
`steps_taken` equal to that 1-based step index. -/
theorem stuck_detection :
    (∀ (hs : List String) (x : String),
      (applyStuck hs).counts x = hs.count x ∧
      (applyStuck hs).warnings x = hs.count x - 4) ∧
    (∀ (pre : List String) (h : String),
      (checkAfter pre h = .ok ↔ pre.count h + 1 < STUCK_SCREENSHOT_LIMIT) ∧
      (∀ w rep, checkAfter pre h = .warn w rep ↔
        (STUCK_SCREENSHOT_LIMIT ≤ pre.count h + 1 ∧ pre.count h + 1 ≤ 7 ∧
          w = pre.count h + 1 - 4 ∧ rep = pre.count h + 1)) ∧
      (checkAfter pre h = .stop ↔ 8 ≤ pre.count h + 1)) ∧
    (∀ (env : LoopEnv) (inputs : List StepInput),
      (∀ inp ∈ inputs, inp.response.action.isTerminal = false) →
      (runSteps env 0 .fresh inputs).2 =
        (firstStopIdx [] (inputs.map fun inp => env.hash inp.screenshot_b64)).map
          (fun i => ⟨false, "Force stopped: stuck on the same screen", i + 1⟩)) ∧
    (∀ (hs : List String) (pre : List String) (i : Nat),
      firstStopIdx pre hs = some i ↔
        ((∃ h, hs[i]? = some h ∧ checkAfter (pre ++ hs.take i) h = .stop) ∧
         ∀ j, j < i → ∀ h', hs[j]? = some h' →
           checkAfter (pre ++ hs.take j) h' ≠ .stop)) := by
  refine ⟨fun hs x => applyStuck_spec hs x, checkAfter_spec, fun env inputs hnt => ?_,
    fun hs pre i => firstStopIdx_spec hs pre i⟩
  have h0 : (LoopState.fresh : LoopState) = ⟨([] : List String).length, applyStuck [], []⟩ := rfl
  rw [h0, runSteps_firstStop env inputs [] [] hnt]
  simp

/-- C2 witness: eight consecutive identical screenshots force-stop the
loop exactly on the eighth step. -/
theorem stuck_detection_witness :
    (runSteps probeEnv 0 .fresh (List.replicate 8 (probeInput "G" "u"))).2 =
      some ⟨false, "Force stopped: stuck on the same screen", 8⟩ := by
  rw [stuck_detection.2.2.1 probeEnv (List.replicate 8 (probeInput "G" "u")) (by decide)]
  decide

/-- C7: terminal actions and the settle delay.  On a step that reaches the
LLM response (within the step bound and not force-stopped by stuck
detection): a `done` action ends the loop at once with a success result
carrying the action's summary, a `fail` action with a failure result
carrying the action's reason — in both cases `_execute_action` issues no
browser call, so no settle delay is incurred; every non-terminal action
other than `wait` executes as one primitive browser call followed by the
2000 ms settle wait; and a `wait` action incurs exactly its own wait. -/
theorem terminal_actions_and_settle (env : LoopEnv) (maxSteps : Nat) (st : LoopState)
    (input : StepInput)
    (hmax : ¬(0 < maxSteps ∧ maxSteps < st.step + 1))
    (hstuck : (stuckStep st.stuck (env.hash input.screenshot_b64)).2 ≠ .stop) :
    (∀ s, input.response.action = .done s →
      (loopStep env maxSteps st input).2 = .finished ⟨true, s, st.step + 1⟩) ∧
    (∀ r, input.response.action = .fail r →
      (loopStep env maxSteps st input).2 = .finished ⟨false, r, st.step + 1⟩) ∧
    (∀ a, input.response.action = a → a.isTerminal = false →
      (loopStep env maxSteps st input).2 = .continued (execute_action a)) ∧
    (∀ a, a.isTerminal = true → execute_action a = []) ∧
    (∀ ms, execute_action (.wait ms) = [.wait ms]) ∧
    (∀ a, a.isTerminal = false → (∀ ms, a ≠ .wait ms) →
      ∃ cmd, execute_action a = [cmd, .wait POST_ACTION_DELAY_MS]) := by
  have hterm : ∀ a : Action, a.isTerminal = true → execute_action a = [] := by
    intro a ha
    cases a <;> simp_all [Action.isTerminal, execute_action]
  have hwait : ∀ ms : Int, execute_action (.wait ms) = [.wait ms] := fun _ => rfl
  have hprim : ∀ a : Action, a.isTerminal = false → (∀ ms, a ≠ .wait ms) →
      ∃ cmd, execute_action a = [cmd, .wait POST_ACTION_DELAY_MS] := by
    intro a ha hw
    cases a <;> first
      | exact ⟨_, rfl⟩
      | exact absurd rfl (hw _)
      | simp_all [Action.isTerminal]
  rcases hsc : stuckStep st.stuck (env.hash input.screenshot_b64) with ⟨stuck, check⟩
  rw [hsc] at hstuck
  simp only at hstuck
  have step_eq : ∀ out : StepOutcome,
      ((loopStep env maxSteps st input).2 = out ↔
        (match input.response.action with
          | .done s => StepOutcome.finished ⟨true, s, st.step + 1⟩
          | .fail r => StepOutcome.finished ⟨false, r, st.step + 1⟩
          | a => StepOutcome.continued (execute_action a)) = out) := by
    intro out
    simp only [loopStep]
    rw [if_neg hmax, hsc]
    cases check with
    | stop => exact absurd rfl hstuck
    | warn w r =>
      cases hact : input.response.action <;> simp [hact]
    | ok =>
      cases hact : input.response.action <;> simp [hact]
  refine ⟨?_, ?_, ?_, hterm, hwait, hprim⟩
  · intro s hs
    rw [step_eq]
    simp [hs]
  · intro r hr
    rw [step_eq]
    simp [hr]
  · intro a ha hnt
    rw [step_eq]
    rw [ha]
    cases a <;> simp_all [Action.isTerminal]

/-- C7 witness: a concrete step whose response carries `done` finishes
with a success result holding the summary. -/
theorem terminal_actions_and_settle_witness :
    (loopStep ⟨fun s => s, fun _ => "r", fun _ => none⟩ 0 LoopState.fresh
      ⟨"IMG", "https://e.com", ⟨"obs", "why", "next", .done "all good"⟩⟩).2 =
      .finished ⟨true, "all good", 1⟩ :=
  (terminal_actions_and_settle ⟨fun s => s, fun _ => "r", fun _ => none⟩ 0 LoopState.fresh
    ⟨"IMG", "https://e.com", ⟨"obs", "why", "next", .done "all good"⟩⟩
    (by decide) (by decide)).1 "all good" rfl

/-- C6 witness: a concrete version-1 session state round-trips. -/
theorem session_roundtrip_witness :
    load_session (save_session
      { version := 1, status := "in_progress", url := "https://example.com",
        last_url := "https://example.com/a", scenario := "Test scenario",
        model := "haiku", viewport := [("width", 1280), ("height", 720)],
        headless := true, pause := false, max_steps := 10, step := 3,
        elapsed_seconds := 45, screenshot_counts := [("abc", 2), ("def", 1)],
        screenshot_warnings := [("abc", 1)],
        conversation := [.obj [("role", .str "user"), ("content", .str "Hello")]],
        usage := [("input_tokens", 1000), ("output_tokens", 500)],
        fallback_model := some "sonnet", use_smart_model := false }) = some
      { version := 1, status := "in_progress", url := "https://example.com",
        last_url := "https://example.com/a", scenario := "Test scenario",
        model := "haiku", viewport := [("width", 1280), ("height", 720)],
        headless := true, pause := false, max_steps := 10, step := 3,
        elapsed_seconds := 45, screenshot_counts := [("abc", 2), ("def", 1)],
        screenshot_warnings := [("abc", 1)],
        conversation := [.obj [("role", .str "user"), ("content", .str "Hello")]],
        usage := [("input_tokens", 1000), ("output_tokens", 500)],
        fallback_model := some "sonnet", use_smart_model := false } :=
  session_roundtrip _ rfl

theorem UsageStats.add_zero (a : UsageStats) : a.add .zero = a := by
  cases a; rfl

theorem UsageStats.zero_add (a : UsageStats) : UsageStats.add .zero a = a := by
  cases a; simp [UsageStats.add, UsageStats.zero]

theorem UsageStats.add_assoc (a b c : UsageStats) :
    (a.add b).add c = a.add (b.add c) := by
  cases a; cases b; cases c
  simp [UsageStats.add, Nat.add_assoc]

theorem sumUsage_append (l1 l2 : List UsageStats) :
    sumUsage (l1 ++ l2) = (sumUsage l1).add (sumUsage l2) := by
  induction l1 with
  | nil => simp [sumUsage, UsageStats.zero_add]
  | cons x rest ih =>
    simp only [List.cons_append, sumUsage, List.foldr_cons] at ih ⊢
    rw [ih, UsageStats.add_assoc]

theorem callLoop_calls_le {Msg J R : Type} (env : CallerEnv Msg J R) (hasSchema : Bool)
    (api : Nat → ApiOutcome) :
    ∀ (rem att : Nat) (msgs : List Msg) (acc : UsageStats) (calls : Nat),
      (callLoop env hasSchema api rem att msgs acc calls).apiCalls ≤ calls + rem := by
  intro rem
  induction rem with
  | zero =>
    intro att msgs acc calls
    simp only [callLoop]
    repeat' split
    all_goals simp
  | succ rem ih =>
    intro att msgs acc calls
    simp only [callLoop]
    repeat' split
    all_goals first
      | exact le_trans (ih _ _ _ _) (by omega)
      | (simp only; omega)

theorem callLoop_succ_schema {Msg J R : Type} (env : CallerEnv Msg J R)
    (api : Nat → ApiOutcome) (rem att : Nat) (msgs : List Msg) (acc : UsageStats)
    (calls : Nat) :
    callLoop env true api (rem + 1) att msgs acc calls =
      (match api att with
       | .raises e => ⟨.raised (.transport e), acc, msgs, calls + 1⟩
       | .ok r =>
         match r.text with
         | none =>
           callLoop env true api rem (att + 1)
             (msgs ++ [env.createRetry ("Empty response received from " ++ env.provider)])
             (acc.add r.usage) (calls + 1)
         | some textContent =>
           match env.parseJson (strip_markdown_code_block textContent) with
           | .error e =>
             callLoop env true api rem (att + 1)
               (msgs ++ [env.createRetry ("Invalid JSON format: " ++ e ++ ". Content: " ++
                 pyTake (strip_markdown_code_block textContent) 200 ++
                 ". Please provide valid JSON matching the schema.")])
               (acc.add r.usage) (calls + 1)
           | .ok data =>
             match env.validate data with
             | .ok v => ⟨.ok v (acc.add r.usage), acc.add r.usage, msgs, calls + 1⟩
             | .error e =>
               callLoop env true api rem (att + 1)
                 (msgs ++ [env.createRetry ("JSON does not match schema: " ++ e ++ ". Content: " ++
                   pyTake (strip_markdown_code_block textContent) 200 ++
                   ". Please ensure all required fields are present and match the schema.")])
                 (acc.add r.usage) (calls + 1) : CallTrace Msg R) := rfl

theorem callLoop_succ_noschema {Msg J R : Type} (env : CallerEnv Msg J R)
    (api : Nat → ApiOutcome) (rem att : Nat) (msgs : List Msg) (acc : UsageStats)
    (calls : Nat) :
    callLoop env false api (rem + 1) att msgs acc calls =
      (match api att with
       | .raises e => ⟨.text ("Error: " ++ e) acc, acc, msgs, calls + 1⟩
       | .ok r =>
         match r.text with
         | none =>
           callLoop env false api rem (att + 1)
             (msgs ++ [env.createRetry ("Empty response received from " ++ env.provider)])
             (acc.add r.usage) (calls + 1)
         | some textContent =>
           ⟨.text textContent (acc.add r.usage), acc.add r.usage, msgs,
            calls + 1⟩ : CallTrace Msg R) := rfl

theorem callLoop_step_fail {Msg J R : Type} (env : CallerEnv Msg J R)
    (api : Nat → ApiOutcome) (rem att : Nat) (msgs : List Msg) (acc : UsageStats)
    (calls : Nat) (r : LlmResult) (e : String)
    (hapi : api att = .ok r) (hfail : attemptFailure env r = some e) :
    callLoop env true api (rem + 1) att msgs acc calls =
      callLoop env true api rem (att + 1) (msgs ++ [env.createRetry e])
        (acc.add r.usage) (calls + 1) := by
  obtain ⟨tex, usage⟩ := r
  rw [callLoop_succ_schema, hapi]
  cases tex with
  | none =>
    simp only [attemptFailure] at hfail
    obtain rfl := Option.some.inj hfail
    rfl
  | some t =>
    simp only [attemptFailure] at hfail
    dsimp only
    cases hp : env.parseJson (strip_markdown_code_block t) with
    | error pe =>
      rw [hp] at hfail
      simp only at hfail
      obtain rfl := Option.some.inj hfail
      rfl
    | ok j =>
      rw [hp] at hfail
      simp only at hfail
      cases hv : env.validate j with
      | ok v => rw [hv] at hfail; simp at hfail
      | error ve =>
        rw [hv] at hfail
        simp only at hfail
        obtain rfl := Option.some.inj hfail
        dsimp only
        rw [hv]

theorem callLoop_step_ok {Msg J R : Type} (env : CallerEnv Msg J R)
    (api : Nat → ApiOutcome) (rem att : Nat) (msgs : List Msg) (acc : UsageStats)
    (calls : Nat) (r : LlmResult) (v : R)
    (hapi : api att = .ok r) (hval : attemptValue env r = some v) :
    callLoop env true api (rem + 1) att msgs acc calls =
      ⟨.ok v (acc.add r.usage), acc.add r.usage, msgs, calls + 1⟩ := by
  obtain ⟨tex, usage⟩ := r
  rw [callLoop_succ_schema, hapi]
  cases tex with
  | none => simp [attemptValue] at hval
  | some t =>
    simp only [attemptValue] at hval
    dsimp only
    cases hp : env.parseJson (strip_markdown_code_block t) with
    | error pe => rw [hp] at hval; simp at hval
    | ok j =>
      rw [hp] at hval
      simp only at hval
      cases hv : env.validate j with
      | ok v' =>
        rw [hv] at hval
        obtain rfl := Option.some.inj hval
        dsimp only
        rw [hv]
      | error ve => rw [hv] at hval; simp at hval

theorem callLoop_step_raise {Msg J R : Type} (env : CallerEnv Msg J R) (hasSchema : Bool)
    (api : Nat → ApiOutcome) (rem att : Nat) (msgs : List Msg) (acc : UsageStats)
    (calls : Nat) (e : String) (hapi : api att = .raises e) :
    callLoop env hasSchema api (rem + 1) att msgs acc calls =
      if hasSchema then ⟨.raised (.transport e), acc, msgs, calls + 1⟩
      else ⟨.text ("Error: " ++ e) acc, acc, msgs, calls + 1⟩ := by
  cases hasSchema with
  | true => rw [callLoop_succ_schema, hapi]; rfl
  | false => rw [callLoop_succ_noschema, hapi]; rfl

theorem range_succ_shift {α : Type} (f : Nat → α) (n : Nat) :
    (List.range (n + 1)).map f = f 0 :: (List.range n).map (fun k => f (k + 1)) := by
  rw [List.range_succ_eq_map, List.map_cons, List.map_map]
  rfl

theorem callLoop_fail_init {Msg J R : Type} (env : CallerEnv Msg J R)
    (api : Nat → ApiOutcome) :
    ∀ (n rem att : Nat) (msgs : List Msg) (acc : UsageStats) (calls : Nat),
      n ≤ rem →
      (∀ k, k < n → ∃ r e, api (att + k) = .ok r ∧ attemptFailure env r = some e) →
      callLoop env true api rem att msgs acc calls =
        callLoop env true api (rem - n) (att + n)
          (msgs ++ (List.range n).map fun k =>
            env.createRetry ((retryTextOf env (api (att + k))).getD ""))
          (acc.add (sumUsage ((List.range n).map fun k => attemptUsage (api (att + k)))))
          (calls + n) := by
  intro n
  induction n with
  | zero =>
    intro rem att msgs acc calls _ _
    simp [sumUsage, UsageStats.add_zero]
  | succ n ih =>
    intro rem att msgs acc calls hle hfail
    obtain ⟨rem', rfl⟩ : ∃ rem', rem = rem' + 1 := ⟨rem - 1, by omega⟩
    obtain ⟨r, e, hapi, hf⟩ := hfail 0 (Nat.succ_pos _)
    rw [Nat.add_zero] at hapi
    have hretry : (retryTextOf env (api att)).getD "" = e := by
      simp [retryTextOf, hapi, hf]
    have h3 : msgs ++ (List.range (n + 1)).map (fun k =>
        env.createRetry ((retryTextOf env (api (att + k))).getD "")) =
        (msgs ++ [env.createRetry e]) ++ (List.range n).map (fun k =>
          env.createRetry ((retryTextOf env (api (att + 1 + k))).getD "")) := by
      rw [range_succ_shift]
      simp only [Nat.add_zero, hretry]
      rw [List.append_assoc, List.singleton_append]
      congr 1
      congr 1
      apply List.map_congr_left
      intro k _
      rw [show att + (k + 1) = att + 1 + k by omega]
    have h4 : acc.add (sumUsage ((List.range (n + 1)).map fun k =>
        attemptUsage (api (att + k)))) =
        (acc.add r.usage).add (sumUsage ((List.range n).map fun k =>
          attemptUsage (api (att + 1 + k)))) := by
      rw [range_succ_shift]
      rw [show sumUsage ((fun k => attemptUsage (api (att + k))) 0 ::
        (List.range n).map (fun k => attemptUsage (api (att + (k + 1))))) =
        (attemptUsage (api (att + 0))).add (sumUsage ((List.range n).map
          (fun k => attemptUsage (api (att + (k + 1)))))) from rfl]
      rw [← UsageStats.add_assoc]
      have hu : attemptUsage (api (att + 0)) = r.usage := by
        rw [Nat.add_zero, hapi]
        rfl
      rw [hu]
      congr 1
      congr 1
      apply List.map_congr_left
      intro k _
      rw [show att + (k + 1) = att + 1 + k by omega]
    have h1 : rem' + 1 - (n + 1) = rem' - n := by omega
    have h2 : att + (n + 1) = att + 1 + n := by omega
    have h5 : calls + (n + 1) = calls + 1 + n := by omega
    rw [callLoop_step_fail env api rem' att msgs acc calls r e hapi hf]
    rw [h1, h2, h3, h4, h5]
    exact ih rem' (att + 1) _ _ _ (by omega)
      (fun k hk => by
        obtain ⟨r', e', hq1, hq2⟩ := hfail (k + 1) (by omega)
        refine ⟨r', e', ?_, hq2⟩
        rw [show att + 1 + k = att + (k + 1) by omega]
        exact hq1)

theorem callLoop_zero_schema {Msg J R : Type} (env : CallerEnv Msg J R)
    (api : Nat → ApiOutcome) (att : Nat) (msgs : List Msg) (acc : UsageStats)
    (calls : Nat) :
    callLoop env true api 0 att msgs acc calls =
      ⟨(match env.exhaustFallback with
        | some v => .ok v acc
        | none => .raised (.valueError ("Failed to get valid response from " ++
            env.provider ++ " after " ++ toString MAX_RETRIES ++ " attempts"))),
       acc, msgs, calls⟩ := by
  simp only [callLoop]
  cases env.exhaustFallback <;> rfl

theorem callLoop_step_empty_noschema {Msg J R : Type} (env : CallerEnv Msg J R)
    (api : Nat → ApiOutcome) (rem att : Nat) (msgs : List Msg) (acc : UsageStats)
    (calls : Nat) (u : UsageStats) (hapi : api att = .ok ⟨none, u⟩) :
    callLoop env false api (rem + 1) att msgs acc calls =
      callLoop env false api rem (att + 1)
        (msgs ++ [env.createRetry ("Empty response received from " ++ env.provider)])
        (acc.add u) (calls + 1) := by
  rw [callLoop_succ_noschema, hapi]

theorem callLoop_empty_prefix_noschema {Msg J R : Type} (env : CallerEnv Msg J R)
    (api : Nat → ApiOutcome) :
    ∀ (n rem att : Nat) (msgs : List Msg) (acc : UsageStats) (calls : Nat),
      n ≤ rem →
      (∀ k, k < n → ∃ u, api (att + k) = .ok ⟨none, u⟩) →
      callLoop env false api rem att msgs acc calls =
        callLoop env false api (rem - n) (att + n)
          (msgs ++ List.replicate n
            (env.createRetry ("Empty response received from " ++ env.provider)))
          (acc.add (sumUsage ((List.range n).map fun k => attemptUsage (api (att + k)))))
          (calls + n) := by
  intro n
  induction n with
  | zero =>
    intro rem att msgs acc calls _ _
    simp [sumUsage, UsageStats.add_zero]
  | succ n ih =>
    intro rem att msgs acc calls hle hfail
    obtain ⟨rem', rfl⟩ : ∃ rem', rem = rem' + 1 := ⟨rem - 1, by omega⟩
    obtain ⟨u, hapi⟩ := hfail 0 (Nat.succ_pos _)
    rw [Nat.add_zero] at hapi
    have h3 : msgs ++ List.replicate (n + 1)
        (env.createRetry ("Empty response received from " ++ env.provider)) =
        (msgs ++ [env.createRetry ("Empty response received from " ++ env.provider)]) ++
          List.replicate n (env.createRetry ("Empty response received from " ++ env.provider)) := by
      rw [List.append_assoc, List.singleton_append]
      rfl
    have h4 : acc.add (sumUsage ((List.range (n + 1)).map fun k =>
        attemptUsage (api (att + k)))) =
        (acc.add u).add (sumUsage ((List.range n).map fun k =>
          attemptUsage (api (att + 1 + k)))) := by
      rw [range_succ_shift]
      rw [show sumUsage ((fun k => attemptUsage (api (att + k))) 0 ::
        (List.range n).map (fun k => attemptUsage (api (att + (k + 1))))) =
        (attemptUsage (api (att + 0))).add (sumUsage ((List.range n).map
          (fun k => attemptUsage (api (att + (k + 1)))))) from rfl]
      rw [← UsageStats.add_assoc]
      have hu : attemptUsage (api (att + 0)) = u := by
        rw [Nat.add_zero, hapi]
        rfl
      rw [hu]
      congr 1
      congr 1
      apply List.map_congr_left
      intro k _
      rw [show att + (k + 1) = att + 1 + k by omega]
    have h1 : rem' + 1 - (n + 1) = rem' - n := by omega
    have h2 : att + (n + 1) = att + 1 + n := by omega
    have h5 : calls + (n + 1) = calls + 1 + n := by omega
    rw [callLoop_step_empty_noschema env api rem' att msgs acc calls u hapi]
    rw [h1, h2, h3, h4, h5]
    exact ih rem' (att + 1) _ _ _ (by omega)
      (fun k hk => by
        obtain ⟨u', hq⟩ := hfail (k + 1) (by omega)
        refine ⟨u', ?_⟩
        rw [show att + 1 + k = att + (k + 1) by omega]
        exact hq)

/-- C4: structured-call retry policy.  A schema-constrained `call_llm`
makes at most `MAX_RETRIES` (3) provider attempts; an attempt fails
exactly when the provider returned no content, the stripped text is not
valid JSON, or the parsed JSON fails schema validation (`attemptFailure`);
each failed attempt appends exactly one synthetic retry-instruction
message to the working provider-format message list — which starts as the
converted copy of the caller's history; the immutable history argument is
never touched; and the usage accumulated by the call is the componentwise
sum of the usage of every attempt made, failed attempts included, both
when a later attempt succeeds and when all three fail. -/
theorem structured_retry_policy {Msg J R : Type} (env : CallerEnv Msg J R)
    (api : Nat → ApiOutcome) (history : List ConversationMessage) :
    (call_llm env true api history).apiCalls ≤ MAX_RETRIES ∧
    (∀ n, n < MAX_RETRIES →
      (∀ k, k < n → ∃ r e, api k = .ok r ∧ attemptFailure env r = some e) →
      ∀ rn v, api n = .ok rn → attemptValue env rn = some v →
        call_llm env true api history =
          ⟨.ok v (sumUsage ((List.range (n + 1)).map fun k => attemptUsage (api k))),
           sumUsage ((List.range (n + 1)).map fun k => attemptUsage (api k)),
           env.convertMessages history ++ (List.range n).map (fun k =>
             env.createRetry ((retryTextOf env (api k)).getD "")),
           n + 1⟩) ∧
    ((∀ k, k < MAX_RETRIES → ∃ r e, api k = .ok r ∧ attemptFailure env r = some e) →
      call_llm env true api history =
        ⟨(match env.exhaustFallback with
          | some v => .ok v (sumUsage ((List.range MAX_RETRIES).map fun k =>
              attemptUsage (api k)))
          | none => .raised (.valueError ("Failed to get valid response from " ++
              env.provider ++ " after " ++ toString MAX_RETRIES ++ " attempts"))),
         sumUsage ((List.range MAX_RETRIES).map fun k => attemptUsage (api k)),
         env.convertMessages history ++ (List.range MAX_RETRIES).map (fun k =>
           env.createRetry ((retryTextOf env (api k)).getD "")),
         MAX_RETRIES⟩) := by
  refine ⟨?_, ?_, ?_⟩
  · simpa using callLoop_calls_le env true api MAX_RETRIES 0
      (env.convertMessages history) .zero 0
  · intro n hn hfail rn v hapi hval
    show callLoop env true api MAX_RETRIES 0 (env.convertMessages history) .zero 0 = _
    rw [callLoop_fail_init env api n MAX_RETRIES 0 (env.convertMessages history) .zero 0
      (by omega) (fun k hk => by simpa [Nat.zero_add] using hfail k hk)]
    simp only [Nat.zero_add]
    obtain ⟨m, hm⟩ : ∃ m, MAX_RETRIES - n = m + 1 := ⟨MAX_RETRIES - n - 1, by omega⟩
    rw [hm]
    rw [callLoop_step_ok env api m n _ _ _ rn v hapi hval]
    have hsum : sumUsage ((List.range (n + 1)).map fun k => attemptUsage (api k)) =
        (sumUsage ((List.range n).map fun k => attemptUsage (api k))).add rn.usage := by
      rw [List.range_succ, List.map_append, sumUsage_append]
      simp [sumUsage, UsageStats.add_zero, attemptUsage, hapi]
    rw [hsum, UsageStats.zero_add]
  · intro hfail
    show callLoop env true api MAX_RETRIES 0 (env.convertMessages history) .zero 0 = _
    rw [callLoop_fail_init env api MAX_RETRIES MAX_RETRIES 0 (env.convertMessages history)
      .zero 0 (le_refl _) (fun k hk => by simpa [Nat.zero_add] using hfail k hk)]
    simp only [Nat.zero_add]
    rw [Nat.sub_self]
    rw [callLoop_zero_schema, UsageStats.zero_add]

/-- C4 witness: a concrete schema-constrained call whose first attempt
returns malformed JSON and whose second attempt validates: two provider
attempts, one retry message on the working list, usage summed over both
attempts. -/
theorem structured_retry_policy_witness :
    call_llm probeCaller true apiFailThenOk [] =
      ⟨.ok "V" ⟨9, 3, 0, 0⟩, ⟨9, 3, 0, 0⟩,
       ["Invalid JSON format: bad json. Content: bad. Please provide valid JSON matching the schema."],
       2⟩ := by
  have h := (structured_retry_policy probeCaller apiFailThenOk []).2.1 1 (by decide)
    (fun k hk => by
      interval_cases k
      exact ⟨⟨some "bad", ⟨5, 2, 0, 0⟩⟩, _, rfl, rfl⟩)
    ⟨some "good", ⟨4, 1, 0, 0⟩⟩ "V" rfl rfl
  rw [h]
  rfl

/-- C5 counterexample: the propagated error cannot carry the usage
collected so far.  Two schema-constrained calls — one whose first attempt
raises the transport exception at once, one that first burns a failed
attempt with usage ⟨7, 3, 1, 2⟩ and then hits the same exception —
produce the *identical* Python-visible outcome (the bare re-raised
exception), while the usage collected inside the call differs (zero
versus ⟨7, 3, 1, 2⟩): `_handle_error` re-raises with a bare `raise` and
the accumulated `total_usage` is discarded. -/
theorem transport_usage_counterexample :
    (call_llm probeCaller true apiRaiseNow []).result = .raised (.transport "boom") ∧
    (call_llm probeCaller true apiFailThenRaise []).result = .raised (.transport "boom") ∧
    (call_llm probeCaller true apiRaiseNow []).collected = .zero ∧
    (call_llm probeCaller true apiFailThenRaise []).collected = ⟨7, 3, 1, 2⟩ :=
  ⟨rfl, rfl, rfl, rfl⟩

/-- C5 (amended): a transport-level provider exception is never retried —
the call ends on the attempt that raised, with no further provider
attempts in both modes.  When no schema was given, `call_llm` returns an
`"Error: …"` string *result* carrying the usage collected so far.  When a
schema was given, `_handle_error` re-raises the exception bare, and the
usage collected so far is not attached to it (it is lost; see the
counterexample). -/
theorem transport_not_retried {Msg J R : Type} (env : CallerEnv Msg J R)
    (api : Nat → ApiOutcome) (history : List ConversationMessage) (n : Nat) (e : String)
    (hn : n < MAX_RETRIES) (hraise : api n = .raises e) :
    ((∀ k, k < n → ∃ r e', api k = .ok r ∧ attemptFailure env r = some e') →
      (call_llm env true api history).apiCalls = n + 1 ∧
      (call_llm env true api history).result = .raised (.transport e) ∧
      (call_llm env true api history).collected =
        sumUsage ((List.range n).map fun k => attemptUsage (api k))) ∧
    ((∀ k, k < n → ∃ u, api k = .ok ⟨none, u⟩) →
      call_llm env false api history =
        ⟨.text ("Error: " ++ e)
           (sumUsage ((List.range n).map fun k => attemptUsage (api k))),
         sumUsage ((List.range n).map fun k => attemptUsage (api k)),
         env.convertMessages history ++ List.replicate n
           (env.createRetry ("Empty response received from " ++ env.provider)),
         n + 1⟩) := by
  constructor
  · intro hfail
    have hre : call_llm env true api history =
        callLoop env true api MAX_RETRIES 0 (env.convertMessages history) .zero 0 := rfl
    rw [hre, callLoop_fail_init env api n MAX_RETRIES 0 (env.convertMessages history)
      .zero 0 (by omega) (fun k hk => by simpa [Nat.zero_add] using hfail k hk)]
    simp only [Nat.zero_add]
    obtain ⟨m, hm⟩ : ∃ m, MAX_RETRIES - n = m + 1 := ⟨MAX_RETRIES - n - 1, by omega⟩
    rw [hm]
    rw [callLoop_step_raise env true api m n _ _ _ e hraise]
    rw [if_pos rfl, UsageStats.zero_add]
    exact ⟨by simp, rfl, rfl⟩
  · intro hfail
    have hre : call_llm env false api history =
        callLoop env false api MAX_RETRIES 0 (env.convertMessages history) .zero 0 := rfl
    rw [hre, callLoop_empty_prefix_noschema env api n MAX_RETRIES 0
      (env.convertMessages history) .zero 0 (by omega)
      (fun k hk => by simpa [Nat.zero_add] using hfail k hk)]
    simp only [Nat.zero_add]
    obtain ⟨m, hm⟩ : ∃ m, MAX_RETRIES - n = m + 1 := ⟨MAX_RETRIES - n - 1, by omega⟩
    rw [hm]
    rw [callLoop_step_raise env false api m n _ _ _ e hraise]
    rw [if_neg (by simp), UsageStats.zero_add]

/-- C5 witness: with a schema, one failed attempt (usage ⟨7, 3, 1, 2⟩)
followed by a transport exception ends after exactly two provider
attempts with the bare re-raised exception; without a schema, an
immediate transport exception yields the error-string result carrying
the zero usage collected so far. -/
theorem transport_not_retried_witness :
    (call_llm probeCaller true apiFailThenRaise []).apiCalls = 2 ∧
    (call_llm probeCaller true apiFailThenRaise []).result = .raised (.transport "boom") ∧
    (call_llm probeCaller true apiFailThenRaise []).collected = ⟨7, 3, 1, 2⟩ ∧
    call_llm probeCaller false apiRaiseNow [] =
      ⟨.text "Error: boom" .zero, .zero, [], 1⟩ := by
  obtain ⟨ha, hb, hc⟩ :=
    (transport_not_retried probeCaller apiFailThenRaise [] 1 "boom" (by decide) rfl).1
      (fun k hk => by
        interval_cases k
        exact ⟨⟨some "bad", ⟨7, 3, 1, 2⟩⟩, _, rfl, rfl⟩)
  refine ⟨ha, hb, ?_, ?_⟩
  · rw [hc]; rfl
  · have h2 := (transport_not_retried probeCaller apiRaiseNow [] 0 "boom"
      (by decide) rfl).2 (fun k hk => by omega)
    rw [h2]
    rfl

theorem flatten_succ_obj (defs : List (String × JValue)) (f : Nat)
    (fields : List (String × JValue)) :
    flatten_refs defs (f + 1) (.obj fields) =
      (match jlookup fields "$ref" with
       | some (.str refPath) =>
         if strStartsWith refPath "#/$defs/" then
           match jlookup defs (lastSegment refPath) with
           | some d => flatten_refs defs f d
           | none => some (.obj fields)
         else some (.obj fields)
       | some _ => some (.obj fields)
       | none => (seekFields (flatten_refs defs f) fields).map .obj) := rfl

theorem flatten_succ_other (defs : List (String × JValue)) (f : Nat) (v : JValue)
    (hv : ∀ fields, v ≠ .obj fields) :
    flatten_refs defs (f + 1) v = some v := by
  cases v with
  | obj fields => exact absurd rfl (hv fields)
  | null => rfl
  | bool b => rfl
  | num n => rfl
  | str s => rfl
  | arr items => rfl

/-- C10 counterexample: `_flatten_refs` has no cycle guard.  On the
self-referential definitions set `{"Loop": {"$ref": "#/$defs/Loop"}}` the
recursion started on `{"$ref": "#/$defs/Loop"}` exhausts every finite
fuel — the Python source recurses without bound (until the interpreter's
recursion limit kills it) — and so does `_convert_schema_to_gemini` on
the schema document carrying those `$defs`; no cycle is ever "treated as
an unsupported-schema error". -/
theorem flatten_refs_cycle_diverges :
    flattenDiverges cycDefs cycNode ∧
    (∀ fuel, convert_schema_to_gemini fuel cycSchema = none) := by
  have hmain : ∀ fuel, flatten_refs cycDefs fuel cycNode = none := by
    intro fuel
    induction fuel with
    | zero => rfl
    | succ f ih =>
      have hstep : flatten_refs cycDefs (f + 1) cycNode = flatten_refs cycDefs f cycNode := rfl
      rw [hstep, ih]
  refine ⟨hmain, fun fuel => ?_⟩
  show (flatten_refs cycDefs fuel cycNode).map process_schema_node = none
  rw [hmain fuel]
  rfl

theorem seekItem_mono {g g' : JValue → Option JValue}
    (hg : ∀ x v, g x = some v → g' x = some v) :
    ∀ x v, seekItem g x = some v → seekItem g' x = some v := by
  intro x v h
  cases x with
  | obj fs => exact hg _ _ h
  | null => exact h
  | bool b => exact h
  | num n => exact h
  | str s => exact h
  | arr items => exact h

theorem seekItems_mono {g g' : JValue → Option JValue}
    (hg : ∀ x v, g x = some v → g' x = some v) :
    ∀ (l l' : List JValue), seekItems g l = some l' → seekItems g' l = some l' := by
  intro l
  induction l with
  | nil => intro l' h; exact h
  | cons x rest ih =>
    intro l' h
    simp only [seekItems, Option.bind_eq_bind] at h ⊢
    cases hx : seekItem g x with
    | none => rw [hx] at h; simp at h
    | some v' =>
      rw [hx] at h
      cases hr : seekItems g rest with
      | none => rw [hr] at h; simp at h
      | some rest' =>
        rw [hr] at h
        rw [seekItem_mono hg _ _ hx, ih rest' hr]
        exact h

theorem seekValue_mono {g g' : JValue → Option JValue}
    (hg : ∀ x v, g x = some v → g' x = some v) :
    ∀ x v, seekValue g x = some v → seekValue g' x = some v := by
  intro x v h
  cases x with
  | obj fs => exact hg _ _ h
  | arr items =>
    simp only [seekValue] at h ⊢
    cases hi : seekItems g items with
    | none => rw [hi] at h; simp at h
    | some items' =>
      rw [hi] at h
      rw [seekItems_mono hg _ _ hi]
      exact h
  | null => exact h
  | bool b => exact h
  | num n => exact h
  | str s => exact h

theorem seekFields_mono {g g' : JValue → Option JValue}
    (hg : ∀ x v, g x = some v → g' x = some v) :
    ∀ (l l' : List (String × JValue)), seekFields g l = some l' → seekFields g' l = some l' := by
  intro l
  induction l with
  | nil => intro l' h; exact h
  | cons kv rest ih =>
    obtain ⟨k, v⟩ := kv
    intro l' h
    simp only [seekFields, Option.bind_eq_bind] at h ⊢
    cases hx : seekValue g v with
    | none => rw [hx] at h; simp at h
    | some v' =>
      rw [hx] at h
      cases hr : seekFields g rest with
      | none => rw [hr] at h; simp at h
      | some rest' =>
        rw [hr] at h
        rw [seekValue_mono hg _ _ hx, ih rest' hr]
        exact h

theorem flatten_mono (defs : List (String × JValue)) :
    ∀ (f : Nat) (node v : JValue),
      flatten_refs defs f node = some v → flatten_refs defs (f + 1) node = some v := by
  intro f
  induction f with
  | zero => intro node v h; exact absurd h (by simp [flatten_refs])
  | succ f ih =>
    intro node v h
    cases node with
    | obj fields =>
      rw [flatten_succ_obj] at h ⊢
      cases hl : jlookup fields "$ref" with
      | none =>
        rw [hl] at h
        dsimp only at h ⊢
        simp only [Option.map_eq_some'] at h ⊢
        obtain ⟨fs', hfs, rfl⟩ := h
        exact ⟨fs', seekFields_mono ih _ _ hfs, rfl⟩
      | some jv =>
        rw [hl] at h
        cases jv with
        | str rp =>
          dsimp only at h ⊢
          by_cases hs : strStartsWith rp "#/$defs/" = true
          · rw [if_pos hs] at h ⊢
            cases hd : jlookup defs (lastSegment rp) with
            | none => rw [hd] at h; exact h
            | some d => rw [hd] at h; exact ih _ _ h
          · rw [if_neg hs] at h ⊢; exact h
        | null => exact h
        | bool b => exact h
        | num n => exact h
        | arr items => exact h
        | obj fs => exact h
    | null => exact h
    | bool b => exact h
    | num n => exact h
    | str s => exact h
    | arr items => exact h

theorem flatten_mono_le (defs : List (String × JValue)) {f f' : Nat} (hle : f ≤ f') :
    ∀ (node v : JValue),
      flatten_refs defs f node = some v → flatten_refs defs f' node = some v := by
  induction f' with
  | zero =>
    intro node v h
    obtain rfl : f = 0 := by omega
    exact h
  | succ f' ih =>
    intro node v h
    rcases Nat.lt_or_ge f (f' + 1) with hlt | hge
    · exact flatten_mono defs f' node v (ih (by omega) node v h)
    · obtain rfl : f = f' + 1 := by omega
      exact h

theorem jlookup_mem : ∀ (l : List (String × JValue)) (k : String) (v : JValue),
    jlookup l k = some v → (k, v) ∈ l := by
  intro l
  induction l with
  | nil => intro k v h; exact absurd h (by simp [jlookup])
  | cons kv rest ih =>
    obtain ⟨k0, v0⟩ := kv
    intro k v h
    simp only [jlookup] at h
    by_cases hk : k0 = k
    · rw [if_pos hk] at h
      obtain rfl := Option.some.inj h
      subst hk
      exact List.mem_cons_self _ _
    · rw [if_neg hk] at h
      exact List.mem_cons_of_mem _ (ih k v h)

theorem seekFields_keys {g : JValue → Option JValue} :
    ∀ (l l' : List (String × JValue)) (k : String),
      seekFields g l = some l' → jlookup l k = none → jlookup l' k = none := by
  intro l
  induction l with
  | nil =>
    intro l' k h _
    obtain rfl := Option.some.inj h
    rfl
  | cons kv rest ih =>
    obtain ⟨k0, v0⟩ := kv
    intro l' k h hnone
    simp only [seekFields, Option.bind_eq_bind] at h
    cases hx : seekValue g v0 with
    | none => rw [hx] at h; simp at h
    | some v' =>
      rw [hx] at h
      cases hr : seekFields g rest with
      | none => rw [hr] at h; simp at h
      | some rest' =>
        rw [hr] at h
        simp only [Option.some_bind] at h
        obtain rfl := Option.some.inj h
        simp only [jlookup] at hnone ⊢
        by_cases hk : k0 = k
        · rw [if_pos hk] at hnone; exact absurd hnone (by simp)
        · rw [if_neg hk] at hnone ⊢
          exact ih rest' k hr hnone

theorem flatten_obj_shape (defs : List (String × JValue))
    (hobj : defs.all (fun p => p.2.isObj) = true) :
    ∀ (f : Nat) (fields : List (String × JValue)) (v : JValue),
      flatten_refs defs f (.obj fields) = some v → ∃ fs, v = .obj fs := by
  intro f
  induction f with
  | zero => intro fields v h; exact absurd h (by simp [flatten_refs])
  | succ f ih =>
    intro fields v h
    rw [flatten_succ_obj] at h
    cases hl : jlookup fields "$ref" with
    | none =>
      rw [hl] at h
      simp only [Option.map_eq_some'] at h
      obtain ⟨fs', _, rfl⟩ := h
      exact ⟨fs', rfl⟩
    | some jv =>
      rw [hl] at h
      cases jv with
      | str rp =>
        dsimp only at h
        by_cases hs : strStartsWith rp "#/$defs/" = true
        · rw [if_pos hs] at h
          cases hd : jlookup defs (lastSegment rp) with
          | none => rw [hd] at h; exact ⟨fields, (Option.some.inj h).symm⟩
          | some d =>
            rw [hd] at h
            have hdm := jlookup_mem defs _ d hd
            have hdo := List.all_eq_true.mp hobj _ hdm
            cases d with
            | obj dfs => exact ih dfs v h
            | null => simp [JValue.isObj] at hdo
            | bool b => simp [JValue.isObj] at hdo
            | num n => simp [JValue.isObj] at hdo
            | str s => simp [JValue.isObj] at hdo
            | arr items => simp [JValue.isObj] at hdo
        · rw [if_neg hs] at h
          exact ⟨fields, (Option.some.inj h).symm⟩
      | null => exact ⟨fields, (Option.some.inj h).symm⟩
      | bool b => exact ⟨fields, (Option.some.inj h).symm⟩
      | num n => exact ⟨fields, (Option.some.inj h).symm⟩
      | arr items => exact ⟨fields, (Option.some.inj h).symm⟩
      | obj fs => exact ⟨fields, (Option.some.inj h).symm⟩

theorem seekItems_cons {g : JValue → Option JValue} {x : JValue} {rest : List JValue}
    {l' : List JValue} (h : seekItems g (x :: rest) = some l') :
    ∃ v' rest', seekItem g x = some v' ∧ seekItems g rest = some rest' ∧ l' = v' :: rest' := by
  simp only [seekItems, Option.bind_eq_bind] at h
  cases hx : seekItem g x with
  | none => rw [hx] at h; simp at h
  | some v' =>
    rw [hx] at h
    cases hr : seekItems g rest with
    | none => rw [hr] at h; simp at h
    | some rest' =>
      rw [hr] at h
      simp only [Option.some_bind] at h
      exact ⟨v', rest', rfl, rfl, (Option.some.inj h).symm⟩

theorem seekFields_cons {g : JValue → Option JValue} {k : String} {v : JValue}
    {rest l' : List (String × JValue)} (h : seekFields g ((k, v) :: rest) = some l') :
    ∃ v' rest', seekValue g v = some v' ∧ seekFields g rest = some rest' ∧
      l' = (k, v') :: rest' := by
  simp only [seekFields, Option.bind_eq_bind] at h
  cases hx : seekValue g v with
  | none => rw [hx] at h; simp at h
  | some v' =>
    rw [hx] at h
    cases hr : seekFields g rest with
    | none => rw [hr] at h; simp at h
    | some rest' =>
      rw [hr] at h
      simp only [Option.some_bind] at h
      exact ⟨v', rest', rfl, rfl, (Option.some.inj h).symm⟩

theorem flatten_noLive (defs : List (String × JValue))
    (hobj : defs.all (fun p => p.2.isObj) = true) :
    ∀ (f : Nat) (node v : JValue),
      flatten_refs defs f node = some v → noLiveRefs defs v = true := by
  intro f
  induction f with
  | zero => intro node v h; exact absurd h (by simp [flatten_refs])
  | succ f ih =>
    have hitem : ∀ x v', seekItem (flatten_refs defs f) x = some v' →
        noLiveRefs defs v' = true := by
      intro x v' h
      cases x with
      | obj fs => exact ih _ _ h
      | null => obtain rfl := Option.some.inj h; simp [noLiveRefs]
      | bool b => obtain rfl := Option.some.inj h; simp [noLiveRefs]
      | num n => obtain rfl := Option.some.inj h; simp [noLiveRefs]
      | str s => obtain rfl := Option.some.inj h; simp [noLiveRefs]
      | arr items => obtain rfl := Option.some.inj h; simp [noLiveRefs]
    have hitems : ∀ l l', seekItems (flatten_refs defs f) l = some l' →
        noLiveRefsItems defs l' = true := by
      intro l
      induction l with
      | nil => intro l' h; obtain rfl := Option.some.inj h; simp [noLiveRefsItems]
      | cons x rest ihl =>
        intro l' h
        obtain ⟨v', rest', hv', hrest, rfl⟩ := seekItems_cons h
        have h1 := hitem x v' hv'
        have h2 := ihl rest' hrest
        cases v' with
        | obj fs => simp only [noLiveRefsItems, h1, h2, Bool.and_self]
        | null => simpa [noLiveRefsItems] using h2
        | bool b => simpa [noLiveRefsItems] using h2
        | num n => simpa [noLiveRefsItems] using h2
        | str s => simpa [noLiveRefsItems] using h2
        | arr its => simpa [noLiveRefsItems] using h2
    have hval : ∀ x v', seekValue (flatten_refs defs f) x = some v' →
        noLiveRefsValue defs v' = true := by
      intro x v' h
      cases x with
      | obj fs =>
        obtain ⟨fs', rfl⟩ := flatten_obj_shape defs hobj f fs v' h
        simpa [noLiveRefsValue] using ih _ _ h
      | arr items =>
        simp only [seekValue] at h
        cases hi : seekItems (flatten_refs defs f) items with
        | none => rw [hi] at h; simp at h
        | some items' =>
          rw [hi] at h
          obtain rfl : JValue.arr items' = v' := by simpa using h
          simpa [noLiveRefsValue] using hitems items items' hi
      | null => obtain rfl := Option.some.inj h; simp [noLiveRefsValue]
      | bool b => obtain rfl := Option.some.inj h; simp [noLiveRefsValue]
      | num n => obtain rfl := Option.some.inj h; simp [noLiveRefsValue]
      | str s => obtain rfl := Option.some.inj h; simp [noLiveRefsValue]
    have hflds : ∀ l l', seekFields (flatten_refs defs f) l = some l' →
        noLiveRefsFields defs l' = true := by
      intro l
      induction l with
      | nil => intro l' h; obtain rfl := Option.some.inj h; simp [noLiveRefsFields]
      | cons kv rest ihl =>
        obtain ⟨k0, v0⟩ := kv
        intro l' h
        obtain ⟨v', rest', hv', hrest, rfl⟩ := seekFields_cons h
        have h1 := hval v0 v' hv'
        have h2 := ihl rest' hrest
        simp only [noLiveRefsFields, h1, h2, Bool.and_self]
    intro node v h
    cases node with
    | obj fields =>
      rw [flatten_succ_obj] at h
      cases hl : jlookup fields "$ref" with
      | none =>
        rw [hl] at h
        simp only [Option.map_eq_some'] at h
        obtain ⟨fs', hfs, rfl⟩ := h
        have hkeys := seekFields_keys fields fs' "$ref" hfs hl
        simp only [noLiveRefs, hkeys]
        exact hflds fields fs' hfs
      | some jv =>
        rw [hl] at h
        cases jv with
        | str rp =>
          dsimp only at h
          by_cases hs : strStartsWith rp "#/$defs/" = true
          · rw [if_pos hs] at h
            cases hd : jlookup defs (lastSegment rp) with
            | none =>
              rw [hd] at h
              obtain rfl := Option.some.inj h
              simp [noLiveRefs, hl, resolvedName, hs, hd]
            | some d =>
              rw [hd] at h
              exact ih _ _ h
          · rw [if_neg hs] at h
            obtain rfl := Option.some.inj h
            simp [noLiveRefs, hl, resolvedName, hs]
        | null => obtain rfl := Option.some.inj h; simp [noLiveRefs, hl]
        | bool b => obtain rfl := Option.some.inj h; simp [noLiveRefs, hl]
        | num n => obtain rfl := Option.some.inj h; simp [noLiveRefs, hl]
        | arr items => obtain rfl := Option.some.inj h; simp [noLiveRefs, hl]
        | obj fs => obtain rfl := Option.some.inj h; simp [noLiveRefs, hl]
    | null => obtain rfl := Option.some.inj h; simp [noLiveRefs]
    | bool b => obtain rfl := Option.some.inj h; simp [noLiveRefs]
    | num n => obtain rfl := Option.some.inj h; simp [noLiveRefs]
    | str s => obtain rfl := Option.some.inj h; simp [noLiveRefs]
    | arr items => obtain rfl := Option.some.inj h; simp [noLiveRefs]

theorem mem_refsOfItems : ∀ (items : List JValue) (x : JValue) (rp : String),
    x ∈ items → rp ∈ refsOf x → rp ∈ refsOfItems items := by
  intro items
  induction items with
  | nil => intro x rp hx _; exact absurd hx (by simp)
  | cons y rest ih =>
    intro x rp hx hrp
    rcases List.mem_cons.mp hx with rfl | hx'
    · simp only [refsOfItems, List.mem_append]
      exact Or.inl hrp
    · simp only [refsOfItems, List.mem_append]
      exact Or.inr (ih x rp hx' hrp)

theorem mem_refsOfFields : ∀ (fields : List (String × JValue)) (k : String) (v : JValue)
    (rp : String), (k, v) ∈ fields → rp ∈ refsOf v → rp ∈ refsOfFields fields := by
  intro fields
  induction fields with
  | nil => intro k v rp hm _; exact absurd hm (by simp)
  | cons kv rest ih =>
    obtain ⟨k0, v0⟩ := kv
    intro k v rp hm hrp
    rcases List.mem_cons.mp hm with heq | hm'
    · rw [Prod.mk.injEq] at heq
      obtain ⟨rfl, rfl⟩ := heq
      cases v with
      | str s => simp [refsOf] at hrp
      | null => simp [refsOf] at hrp
      | bool b => simp [refsOf] at hrp
      | num n => simp [refsOf] at hrp
      | arr items =>
        simp only [refsOfFields, List.mem_append]
        exact Or.inl hrp
      | obj fs =>
        simp only [refsOfFields, List.mem_append]
        exact Or.inl hrp
    · have htail := ih k v rp hm' hrp
      cases v0 with
      | str s =>
        by_cases hk : k0 = "$ref" <;> simp [refsOfFields, hk, htail]
      | null => simp only [refsOfFields, List.mem_append]; exact Or.inr htail
      | bool b => simp only [refsOfFields, List.mem_append]; exact Or.inr htail
      | num n => simp only [refsOfFields, List.mem_append]; exact Or.inr htail
      | arr items => simp only [refsOfFields, List.mem_append]; exact Or.inr htail
      | obj fs => simp only [refsOfFields, List.mem_append]; exact Or.inr htail

theorem jlookup_ref_refsOfFields : ∀ (fields : List (String × JValue)) (rp : String),
    jlookup fields "$ref" = some (.str rp) → rp ∈ refsOfFields fields := by
  intro fields
  induction fields with
  | nil => intro rp h; exact absurd h (by simp [jlookup])
  | cons kv rest ih =>
    obtain ⟨k0, v0⟩ := kv
    intro rp h
    simp only [jlookup] at h
    by_cases hk : k0 = "$ref"
    · rw [if_pos hk] at h
      obtain rfl := Option.some.inj h
      simp [refsOfFields, hk]
    · rw [if_neg hk] at h
      have htail := ih rp h
      cases v0 with
      | str s => simp [refsOfFields, hk, htail]
      | null => simp only [refsOfFields, List.mem_append]; exact Or.inr htail
      | bool b => simp only [refsOfFields, List.mem_append]; exact Or.inr htail
      | num n => simp only [refsOfFields, List.mem_append]; exact Or.inr htail
      | arr items => simp only [refsOfFields, List.mem_append]; exact Or.inr htail
      | obj fs => simp only [refsOfFields, List.mem_append]; exact Or.inr htail

theorem rank_le_max (defs : List (String × JValue)) (r : String → Nat) :
    ∀ (n : String) (d : JValue), jlookup defs n = some d → r n ≤ maxRank defs r := by
  induction defs with
  | nil => intro n d h; exact absurd h (by simp [jlookup])
  | cons kv rest ih =>
    obtain ⟨k0, v0⟩ := kv
    intro n d h
    simp only [jlookup] at h
    have hmax : maxRank ((k0, v0) :: rest) r = max (r k0) (maxRank rest r) := rfl
    by_cases hk : k0 = n
    · subst hk
      rw [hmax]
      exact Nat.le_max_left _ _
    · rw [if_neg hk] at h
      rw [hmax]
      exact le_trans (ih n d h) (Nat.le_max_right _ _)

theorem rankedDefs_below (defs : List (String × JValue)) (r : String → Nat)
    (hr : rankedDefs defs r = true) {name : String} {d : JValue}
    (hl : jlookup defs name = some d) : refsBelow defs r (r name) d = true := by
  have hmem := jlookup_mem defs name d hl
  exact List.all_eq_true.mpr fun rp hrp =>
    List.all_eq_true.mp (List.all_eq_true.mp hr (name, d) hmem) rp hrp

theorem refsBelow_of_subset {defs : List (String × JValue)} {r : String → Nat} {k : Nat}
    {x y : JValue} (hsub : ∀ rp, rp ∈ refsOf x → rp ∈ refsOf y)
    (hy : refsBelow defs r k y = true) : refsBelow defs r k x = true :=
  List.all_eq_true.mpr fun rp hrp => List.all_eq_true.mp hy rp (hsub rp hrp)

theorem flatten_total (defs : List (String × JValue)) (r : String → Nat)
    (hr : rankedDefs defs r = true) :
    ∀ (k N : Nat) (node : JValue), sizeOf node ≤ N → refsBelow defs r k node = true →
      ∃ f, (flatten_refs defs f node).isSome = true := by
  intro k
  induction k using Nat.strong_induction_on with
  | _ k IHk =>
    intro N
    induction N using Nat.strong_induction_on with
    | _ N IHN =>
      intro node hsz hrb
      cases node with
      | null => exact ⟨1, rfl⟩
      | bool b => exact ⟨1, rfl⟩
      | num n => exact ⟨1, rfl⟩
      | str s => exact ⟨1, rfl⟩
      | arr items => exact ⟨1, rfl⟩
      | obj fields =>
        cases hl : jlookup fields "$ref" with
        | some jv =>
          cases jv with
          | str rp =>
            by_cases hs : strStartsWith rp "#/$defs/" = true
            · cases hd : jlookup defs (lastSegment rp) with
              | some d =>
                have hrn : resolvedName defs rp = some (lastSegment rp) := by
                  simp [resolvedName, hs, hd]
                have hmem : rp ∈ refsOf (JValue.obj fields) := by
                  simpa [refsOf] using jlookup_ref_refsOfFields fields rp hl
                have hlt : r (lastSegment rp) < k := by
                  have h1 := List.all_eq_true.mp hrb rp hmem
                  rw [hrn] at h1
                  exact of_decide_eq_true h1
                obtain ⟨f, hf⟩ := IHk (r (lastSegment rp)) hlt (sizeOf d) d (le_refl _)
                  (rankedDefs_below defs r hr hd)
                refine ⟨f + 1, ?_⟩
                rw [flatten_succ_obj, hl]
                dsimp only
                rw [if_pos hs, hd]
                exact hf
              | none =>
                refine ⟨1, ?_⟩
                rw [flatten_succ_obj, hl]
                dsimp only
                rw [if_pos hs, hd]
                rfl
            · refine ⟨1, ?_⟩
              rw [flatten_succ_obj, hl]
              dsimp only
              rw [if_neg hs]
              rfl
          | null => exact ⟨1, by rw [flatten_succ_obj, hl]; rfl⟩
          | bool b => exact ⟨1, by rw [flatten_succ_obj, hl]; rfl⟩
          | num n => exact ⟨1, by rw [flatten_succ_obj, hl]; rfl⟩
          | arr its => exact ⟨1, by rw [flatten_succ_obj, hl]; rfl⟩
          | obj fs => exact ⟨1, by rw [flatten_succ_obj, hl]; rfl⟩
        | none =>
          have hsub : ∀ (x : JValue), sizeOf x < N → refsBelow defs r k x = true →
              ∃ f, (flatten_refs defs f x).isSome = true := by
            intro x hx hbx
            exact IHN (sizeOf x) hx x (le_refl _) hbx
          have hitemsT : ∀ (il : List JValue),
              (∀ x ∈ il, sizeOf x < N ∧ refsBelow defs r k x = true) →
              ∃ f, (seekItems (flatten_refs defs f) il).isSome = true := by
            intro il
            induction il with
            | nil => exact fun _ => ⟨1, rfl⟩
            | cons x rest ihi =>
              intro hc
              have hx1 : ∃ f, (seekItem (flatten_refs defs f) x).isSome = true := by
                cases x with
                | obj fs =>
                  obtain ⟨f, hf⟩ := hsub (.obj fs) (hc _ (by simp)).1 (hc _ (by simp)).2
                  exact ⟨f, hf⟩
                | null => exact ⟨1, rfl⟩
                | bool b => exact ⟨1, rfl⟩
                | num n => exact ⟨1, rfl⟩
                | str s => exact ⟨1, rfl⟩
                | arr its => exact ⟨1, rfl⟩
              obtain ⟨f1, hf1⟩ := hx1
              obtain ⟨f2, hf2⟩ := ihi (fun y hy => hc y (by simp [hy]))
              obtain ⟨v1, hv1⟩ := Option.isSome_iff_exists.mp hf1
              obtain ⟨l2, hl2⟩ := Option.isSome_iff_exists.mp hf2
              refine ⟨max f1 f2, ?_⟩
              have hm1 : seekItem (flatten_refs defs (max f1 f2)) x = some v1 :=
                seekItem_mono (fun y w hw => flatten_mono_le defs (Nat.le_max_left f1 f2) y w hw)
                  x v1 hv1
              have hm2 : seekItems (flatten_refs defs (max f1 f2)) rest = some l2 :=
                seekItems_mono (fun y w hw => flatten_mono_le defs (Nat.le_max_right f1 f2) y w hw)
                  rest l2 hl2
              simp [seekItems, hm1, hm2]
          have hvalT : ∀ (x : JValue), sizeOf x < N → refsBelow defs r k x = true →
              ∃ f, (seekValue (flatten_refs defs f) x).isSome = true := by
            intro x hx hbx
            cases x with
            | obj fs =>
              obtain ⟨f, hf⟩ := hsub (.obj fs) hx hbx
              exact ⟨f, hf⟩
            | arr its =>
              have hinner : ∀ y ∈ its, sizeOf y < N ∧ refsBelow defs r k y = true := by
                intro y hy
                constructor
                · have h1 := List.sizeOf_lt_of_mem hy
                  have h2 : sizeOf (JValue.arr its) = 1 + sizeOf its := by simp
                  omega
                · refine refsBelow_of_subset (fun rp hrp => ?_) hbx
                  simpa [refsOf] using mem_refsOfItems its y rp hy hrp
              obtain ⟨f, hf⟩ := hitemsT its hinner
              obtain ⟨l2, hl2⟩ := Option.isSome_iff_exists.mp hf
              exact ⟨f, by simp [seekValue, hl2]⟩
            | null => exact ⟨1, rfl⟩
            | bool b => exact ⟨1, rfl⟩
            | num n => exact ⟨1, rfl⟩
            | str s => exact ⟨1, rfl⟩
          have hflds : ∀ (l : List (String × JValue)),
              (∀ p ∈ l, p ∈ fields) →
              ∃ f, (seekFields (flatten_refs defs f) l).isSome = true := by
            intro l
            induction l with
            | nil => exact fun _ => ⟨1, rfl⟩
            | cons kv rest ihl =>
              intro hc
              obtain ⟨k0, v0⟩ := kv
              have hmemf : (k0, v0) ∈ fields := hc _ (by simp)
              have hszv : sizeOf v0 < N := by
                have h1 := List.sizeOf_lt_of_mem hmemf
                have h2 : sizeOf (JValue.obj fields) = 1 + sizeOf fields := by simp
                have h3 : sizeOf (k0, v0) = 1 + sizeOf k0 + sizeOf v0 := by simp
                omega
              have hbv : refsBelow defs r k v0 = true := by
                refine refsBelow_of_subset (fun rp hrp => ?_) hrb
                simpa [refsOf] using mem_refsOfFields fields k0 v0 rp hmemf hrp
              obtain ⟨f1, hf1⟩ := hvalT v0 hszv hbv
              obtain ⟨f2, hf2⟩ := ihl (fun p hp => hc p (by simp [hp]))
              obtain ⟨v1, hv1⟩ := Option.isSome_iff_exists.mp hf1
              obtain ⟨l2, hl2⟩ := Option.isSome_iff_exists.mp hf2
              refine ⟨max f1 f2, ?_⟩
              have hm1 : seekValue (flatten_refs defs (max f1 f2)) v0 = some v1 :=
                seekValue_mono (fun y w hw => flatten_mono_le defs (Nat.le_max_left f1 f2) y w hw)
                  v0 v1 hv1
              have hm2 : seekFields (flatten_refs defs (max f1 f2)) rest = some l2 :=
                seekFields_mono (fun y w hw => flatten_mono_le defs (Nat.le_max_right f1 f2) y w hw)
                  rest l2 hl2
              simp [seekFields, hm1, hm2]
          obtain ⟨f, hf⟩ := hflds fields (fun p hp => hp)
          obtain ⟨l', hl'⟩ := Option.isSome_iff_exists.mp hf
          refine ⟨f + 1, ?_⟩
          rw [flatten_succ_obj, hl]
          simp [hl']

theorem refsBelow_top (defs : List (String × JValue)) (r : String → Nat) (node : JValue) :
    refsBelow defs r (maxRank defs r + 1) node = true := by
  refine List.all_eq_true.mpr fun rp _ => ?_
  show (match resolvedName defs rp with
        | some n => decide (r n < maxRank defs r + 1)
        | none => true) = true
  cases hrn : resolvedName defs rp with
  | none => rfl
  | some n =>
    simp only [resolvedName] at hrn
    split at hrn
    · rename_i hcond
      obtain rfl := Option.some.inj hrn
      obtain ⟨d, hd⟩ := Option.isSome_iff_exists.mp hcond.2
      exact decide_eq_true (Nat.lt_succ_of_le (rank_le_max defs r _ d hd))
    · exact absurd hrn (by simp)

/-- C10: when the `$defs` set is acyclic — witnessed by a topological rank
`r` under which every resolvable `$ref` in a definition points to a
definition of strictly smaller rank — and every definition is a JSON
object, the `_flatten_refs` recursion terminates on every starting node
(some finite fuel suffices), and its output contains no surviving
resolvable `$ref` anywhere the traversal reaches: every such reference
has been replaced by the referenced definition.  (On a cyclic `$defs`
set, by contrast, the recursion exhausts every fuel: the source has no
cycle guard — see the counterexample.) -/
theorem flatten_refs_acyclic (defs : List (String × JValue)) (r : String → Nat)
    (node : JValue) (hr : rankedDefs defs r = true)
    (hobj : defs.all (fun p => p.2.isObj) = true) :
    ∃ f v, flatten_refs defs f node = some v ∧ noLiveRefs defs v = true := by
  obtain ⟨f, hf⟩ := flatten_total defs r hr (maxRank defs r + 1) (sizeOf node) node
    (le_refl _) (refsBelow_top defs r node)
  obtain ⟨v, hv⟩ := Option.isSome_iff_exists.mp hf
  exact ⟨f, v, hv, flatten_noLive defs hobj f node v hv⟩

/-- Witness for `flatten_refs_acyclic` at `wDefs`/`wRank`/`wNode`: the
hypotheses hold for this concrete acyclic definition set and the
conclusion follows by the theorem. -/
theorem flatten_refs_acyclic_witness :
    rankedDefs wDefs wRank = true ∧ wDefs.all (fun p => p.2.isObj) = true ∧
      ∃ f v, flatten_refs wDefs f wNode = some v ∧ noLiveRefs wDefs v = true :=
  ⟨by simp only [rankedDefs, wDefs, List.all_cons, List.all_nil, refsOf, refsOfFields,
      refsOfItems]; decide,
   by decide,
   flatten_refs_acyclic wDefs wRank wNode
     (by simp only [rankedDefs, wDefs, List.all_cons, List.all_nil, refsOf, refsOfFields,
        refsOfItems]; decide)
     (by decide)⟩

end Clicker
